import Mathlib

/-!
Verification of the item-assignment / rotation backend.

The development shallowly embeds the core of the repository:

* `src/db/operations.ts` — `getItemFromCollection`, `createItems`,
  `initializeCollections`, `markAllItemsAsUsed`, `deleteItemsByUser`
  (the unified variant working over both storage backends; the random
  selection `Math.floor(Math.random() * items.length)` is modelled by an
  arbitrary natural number reduced modulo the candidate count, which also
  subsumes the older `findOne` first-in-order variant at draw 0);
* `src/db/database.ts` — the `MongoDBClient` / `SQLiteClient` connection
  state machines;
* `src/models/question.ts`, `src/models/event.ts` — the sample seed data;
* the platform `JSON.stringify` / `JSON.parse` pair used by the SQLite
  branch, modelled for integer-numeric JSON values (the only numbers the
  repository stores).

Item payloads are schema-less JSON values, exactly as the rotation engine
treats them.
-/

/-! ## JSON values

`Json` models the schema-less payload blob (`data` field of an item).
Arrays and objects are mutual list-like inductives so that every function
on them is plain structural recursion. -/

mutual

inductive Json where
  | null : Json
  | bool (b : Bool) : Json
  | num (n : Int) : Json
  | str (s : String) : Json
  | arr (elems : JsonElems) : Json
  | obj (fields : JsonFields) : Json
deriving DecidableEq, Repr

inductive JsonElems where
  | nil : JsonElems
  | cons (hd : Json) (tl : JsonElems) : JsonElems
deriving DecidableEq, Repr

inductive JsonFields where
  | nil : JsonFields
  | cons (key : String) (val : Json) (tl : JsonFields) : JsonFields
deriving DecidableEq, Repr

end

/-! ### Serialisation (model of `JSON.stringify`) -/

/-- Lower-case hexadecimal digit, as emitted by `JSON.stringify` in
`\u00XX` escapes. -/
def hexChar (n : Nat) : Char :=
  if n < 10 then Char.ofNat (48 + n) else Char.ofNat (87 + n)

/-- Escaping of a single character inside a JSON string literal, as done
by `JSON.stringify`: `"` and `\` get a backslash, the named control
characters use their short escapes, remaining control characters use
`\u00XX`, and everything else is emitted verbatim. -/
def escapeChar (c : Char) : List Char :=
  if c = '"' then ['\\', '"']
  else if c = '\\' then ['\\', '\\']
  else if c = Char.ofNat 8 then ['\\', 'b']
  else if c = Char.ofNat 9 then ['\\', 't']
  else if c = Char.ofNat 10 then ['\\', 'n']
  else if c = Char.ofNat 12 then ['\\', 'f']
  else if c = Char.ofNat 13 then ['\\', 'r']
  else if c.toNat < 32 then
    ['\\', 'u', '0', '0', hexChar (c.toNat / 16), hexChar (c.toNat % 16)]
  else [c]

/-- Escape a whole string body. -/
def escapeList : List Char → List Char
  | [] => []
  | c :: cs => escapeChar c ++ escapeList cs

/-- Decimal digit character. -/
def digitChar (n : Nat) : Char := Char.ofNat (48 + n)

/-- Decimal digits of a natural number, most significant first
(fuel-based so that it is structural recursion and kernel-reducible). -/
def natToCharsAux : Nat → Nat → List Char
  | 0, _ => []
  | fuel + 1, n =>
    if n < 10 then [digitChar n]
    else natToCharsAux fuel (n / 10) ++ [digitChar (n % 10)]

/-- Decimal representation of a natural number. -/
def natToChars (n : Nat) : List Char := natToCharsAux (n + 1) n

/-- Decimal representation of an integer, as `JSON.stringify` prints
integer-valued numbers. -/
def intToChars (n : Int) : List Char :=
  if n < 0 then '-' :: natToChars (-n).toNat else natToChars n.toNat

mutual

/-- Model of `JSON.stringify` (character list form). -/
def stringifyChars : Json → List Char
  | .null => "null".data
  | .bool true => "true".data
  | .bool false => "false".data
  | .num n => intToChars n
  | .str s => '"' :: (escapeList s.data ++ ['"'])
  | .arr es => '[' :: stringifyElems es
  | .obj fs => '{' :: stringifyFields fs

/-- Array elements, rendered up to and including the closing bracket. -/
def stringifyElems : JsonElems → List Char
  | .nil => [']']
  | .cons hd tl => stringifyChars hd ++ stringifyElemsRest tl

/-- Array elements after the first: each preceded by a comma. -/
def stringifyElemsRest : JsonElems → List Char
  | .nil => [']']
  | .cons hd tl => ',' :: (stringifyChars hd ++ stringifyElemsRest tl)

/-- Object fields, rendered up to and including the closing brace. -/
def stringifyFields : JsonFields → List Char
  | .nil => ['\x7d']
  | .cons k v tl =>
      '"' :: (escapeList k.data ++ ['"', ':'] ++ stringifyChars v
        ++ stringifyFieldsRest tl)

/-- Object fields after the first: each preceded by a comma. -/
def stringifyFieldsRest : JsonFields → List Char
  | .nil => ['\x7d']
  | .cons k v tl =>
      ',' :: '"' :: (escapeList k.data ++ ['"', ':'] ++ stringifyChars v
        ++ stringifyFieldsRest tl)

end

/-- Model of `JSON.stringify`. -/
def Json.stringify (j : Json) : String := String.mk (stringifyChars j)

/-! ### Parsing (model of `JSON.parse`, on the grammar `JSON.stringify`
emits for integer-numeric values) -/

/-- Decimal digit test, via code points. -/
def isDigitC (c : Char) : Bool := 48 ≤ c.toNat && c.toNat ≤ 57

/-- Lower-case hexadecimal digit test. -/
def isHexC (c : Char) : Bool := isDigitC c || (97 ≤ c.toNat && c.toNat ≤ 102)

/-- Value of a decimal digit character. -/
def digitVal (c : Char) : Nat := c.toNat - 48

/-- Value of a lower-case hexadecimal digit character. -/
def hexVal (c : Char) : Nat := if isDigitC c then c.toNat - 48 else c.toNat - 87

/-- Does the input start with a decimal digit? (Side condition under
which a serialised number followed by this input parses back
unambiguously; every continuation `JSON.stringify` emits after a number
— `,`, `]`, `\x7d` or end of input — satisfies it.) -/
def leadDigit : List Char → Bool
  | [] => false
  | c :: _ => isDigitC c

/-- Greedy run of decimal digits: returns the digits and the remainder. -/
def parseDigits : List Char → List Char × List Char
  | [] => ([], [])
  | c :: cs =>
    if isDigitC c then
      let (ds, rest) := parseDigits cs
      (c :: ds, rest)
    else ([], c :: cs)

/-- Accumulate decimal digits into a natural number. -/
def digitsToNatFrom (acc : Nat) : List Char → Nat
  | [] => acc
  | c :: cs => digitsToNatFrom (10 * acc + digitVal c) cs

/-- Natural number denoted by a digit run. -/
def digitsToNat (l : List Char) : Nat := digitsToNatFrom 0 l

/-- Expect a literal character sequence, returning the remainder. -/
def expectChars : List Char → List Char → Option (List Char)
  | [], input => some input
  | e :: es, c :: cs => if c = e then expectChars es cs else none
  | _ :: _, [] => none

/-- Single-character short escapes accepted after a backslash. -/
def unescapeChar (e : Char) : Option Char :=
  if e = '"' then some '"'
  else if e = '\\' then some '\\'
  else if e = '/' then some '/'
  else if e = 'b' then some (Char.ofNat 8)
  else if e = 't' then some (Char.ofNat 9)
  else if e = 'n' then some (Char.ofNat 10)
  else if e = 'f' then some (Char.ofNat 12)
  else if e = 'r' then some (Char.ofNat 13)
  else none

/-- Parse the body of a JSON string literal (the opening quote already
consumed), up to and including the closing quote. -/
def parseStringBody : List Char → Option (List Char × List Char)
  | [] => none
  | c :: cs =>
    if c = '"' then some ([], cs)
    else if c = '\\' then
      match cs with
      | [] => none
      | e :: cs' =>
        if e = 'u' then
          match cs' with
          | h1 :: h2 :: h3 :: h4 :: cs'' =>
            if isHexC h1 && isHexC h2 && isHexC h3 && isHexC h4 then
              match parseStringBody cs'' with
              | some (s, r) =>
                  some (Char.ofNat
                    (hexVal h1 * 4096 + hexVal h2 * 256 + hexVal h3 * 16
                      + hexVal h4) :: s, r)
              | none => none
            else none
          | _ => none
        else
          match unescapeChar e with
          | some d =>
            match parseStringBody cs' with
            | some (s, r) => some (d :: s, r)
            | none => none
          | none => none
    else if c.toNat < 32 then none
    else
      match parseStringBody cs with
      | some (s, r) => some (c :: s, r)
      | none => none

mutual

/-- Model of `JSON.parse` on one value (fuel-indexed recursive descent);
returns the value and the unconsumed remainder. -/
def parseJson : Nat → List Char → Option (Json × List Char)
  | 0, _ => none
  | _ + 1, [] => none
  | fuel + 1, c :: cs =>
    if c = 'n' then
      match expectChars ['u', 'l', 'l'] cs with
      | some r => some (Json.null, r)
      | none => none
    else if c = 't' then
      match expectChars ['r', 'u', 'e'] cs with
      | some r => some (Json.bool true, r)
      | none => none
    else if c = 'f' then
      match expectChars ['a', 'l', 's', 'e'] cs with
      | some r => some (Json.bool false, r)
      | none => none
    else if c = '"' then
      match parseStringBody cs with
      | some (s, r) => some (Json.str (String.mk s), r)
      | none => none
    else if c = '-' then
      match parseDigits cs with
      | ([], _) => none
      | (ds, rest) => some (Json.num (-(digitsToNat ds : Int)), rest)
    else if isDigitC c then
      match parseDigits (c :: cs) with
      | (ds, rest) => some (Json.num (digitsToNat ds : Int), rest)
    else if c = '[' then
      match parseElems fuel cs with
      | some (es, r) => some (Json.arr es, r)
      | none => none
    else if c = '\x7b' then
      match parseFields fuel cs with
      | some (fs, r) => some (Json.obj fs, r)
      | none => none
    else none

/-- Parse array elements, starting right after `[`. -/
def parseElems : Nat → List Char → Option (JsonElems × List Char)
  | 0, _ => none
  | _ + 1, [] => none
  | fuel + 1, c :: cs =>
    if c = ']' then some (.nil, cs)
    else
      match parseJson fuel (c :: cs) with
      | some (j, r) =>
        match parseElemsRest fuel r with
        | some (tl, r') => some (.cons j tl, r')
        | none => none
      | none => none

/-- Parse array elements after the first, each preceded by a comma. -/
def parseElemsRest : Nat → List Char → Option (JsonElems × List Char)
  | 0, _ => none
  | _ + 1, [] => none
  | fuel + 1, c :: cs =>
    if c = ']' then some (.nil, cs)
    else if c = ',' then
      match parseJson fuel cs with
      | some (j, r) =>
        match parseElemsRest fuel r with
        | some (tl, r') => some (.cons j tl, r')
        | none => none
      | none => none
    else none

/-- Parse object fields, starting right after the opening brace. -/
def parseFields : Nat → List Char → Option (JsonFields × List Char)
  | 0, _ => none
  | _ + 1, [] => none
  | fuel + 1, c :: cs =>
    if c = '\x7d' then some (.nil, cs)
    else if c = '"' then
      match parseStringBody cs with
      | some (k, r) =>
        match r with
        | ':' :: r' =>
          match parseJson fuel r' with
          | some (v, r'') =>
            match parseFieldsRest fuel r'' with
            | some (tl, r3) => some (.cons (String.mk k) v tl, r3)
            | none => none
          | none => none
        | _ => none
      | none => none
    else none

/-- Parse object fields after the first, each preceded by a comma. -/
def parseFieldsRest : Nat → List Char → Option (JsonFields × List Char)
  | 0, _ => none
  | _ + 1, [] => none
  | fuel + 1, c :: cs =>
    if c = '\x7d' then some (.nil, cs)
    else if c = ',' then
      match cs with
      | '"' :: cs' =>
        match parseStringBody cs' with
        | some (k, r) =>
          match r with
          | ':' :: r' =>
            match parseJson fuel r' with
            | some (v, r'') =>
              match parseFieldsRest fuel r'' with
              | some (tl, r3) => some (.cons (String.mk k) v tl, r3)
              | none => none
            | none => none
          | _ => none
        | none => none
      | _ => none
    else none

end

/-- Model of `JSON.parse`: parse a whole string as one JSON value. -/
def Json.parse (s : String) : Option Json :=
  match parseJson (s.length + 1) s.data with
  | some (j, []) => some j
  | _ => none

/-! ### Fuel measures for the parser (proof bookkeeping only) -/

mutual

/-- Fuel sufficient for `parseJson` on the serialisation of a value. -/
def fuelJson : Json → Nat
  | .null => 1
  | .bool _ => 1
  | .num _ => 1
  | .str _ => 1
  | .arr es => 1 + fuelElems es
  | .obj fs => 1 + fuelFields fs

/-- Fuel sufficient for `parseElems`. -/
def fuelElems : JsonElems → Nat
  | .nil => 1
  | .cons hd tl => 1 + max (fuelJson hd) (fuelElemsRest tl)

/-- Fuel sufficient for `parseElemsRest`. -/
def fuelElemsRest : JsonElems → Nat
  | .nil => 1
  | .cons hd tl => 1 + max (fuelJson hd) (fuelElemsRest tl)

/-- Fuel sufficient for `parseFields`. -/
def fuelFields : JsonFields → Nat
  | .nil => 1
  | .cons _ v tl => 1 + max (fuelJson v) (fuelFieldsRest tl)

/-- Fuel sufficient for `parseFieldsRest`. -/
def fuelFieldsRest : JsonFields → Nat
  | .nil => 1
  | .cons _ v tl => 1 + max (fuelJson v) (fuelFieldsRest tl)

end

/-! ## Data model

`Item` is the `BaseItem` of `src/models/base.ts`: an id assigned by the
store, an opaque payload, the `used` flag and the optional `assignedTo`,
`createdBy`, `createdAt` fields. A `Store` is one collection together
with the store's fresh-id counter (`ObjectId` generation / SQLite
`AUTOINCREMENT`). Timestamps are opaque naturals. -/

structure Item where
  id : Nat
  data : Json
  used : Bool
  assignedTo : Option String
  createdBy : Option String
  createdAt : Option Nat
deriving DecidableEq, Repr

structure Store where
  items : List Item
  nextId : Nat
deriving DecidableEq, Repr

/-- One entry of a sample-data table (`{ data: …, used: false }` in
`src/models/question.ts` / `src/models/event.ts`). -/
structure SampleItem where
  data : Json
  used : Bool
deriving DecidableEq, Repr

/-- The empty collection a fresh store starts with. -/
def emptyStore : Store := { items := [], nextId := 1 }

/-! ## Operations (`src/db/operations.ts`) -/

/-- `insertMany(sampleData)`: append the sample items, each with a fresh
id, no assignment, no creator (sample entries carry only `data` and
`used`). -/
def insertSampleItems : Store → List SampleItem → Store
  | s, [] => s
  | s, e :: es =>
    let it : Item :=
      { id := s.nextId, data := e.data, used := e.used,
        assignedTo := none, createdBy := none, createdAt := none }
    insertSampleItems { items := s.items ++ [it], nextId := s.nextId + 1 } es

/-- The candidate filter of `getItemFromCollection`:
`used == false && assignedTo != userId` (MongoDB `$ne` also matches an
absent field; the SQLite query spells it
`assignedTo IS NULL OR assignedTo != ?`). -/
def isCandidate (userId : String) (it : Item) : Bool :=
  !it.used && decide (it.assignedTo ≠ some userId)

/-- The single-item mutation `$set { used: true, assignedTo: userId }`. -/
def setUsedAssigned (userId : String) (it : Item) : Item :=
  { it with used := true, assignedTo := some userId }

/-- `updateOne({ _id: tid }, f)`: update the first item with the given
id (MongoDB `updateOne` semantics; ids are unique in every reachable
store, making this the unique match). -/
def updateFirstById : List Item → Nat → (Item → Item) → List Item
  | [], _, _ => []
  | it :: rest, tid, f =>
    if it.id = tid then f it :: rest else it :: updateFirstById rest tid f

/-- The full-collection reset
`updateMany({}, $set { used: false, assignedTo: undefined })`. -/
def resetItem (it : Item) : Item := { it with used := false, assignedTo := none }

/-- Reset every item of the collection. -/
def resetAll (s : Store) : Store := { s with items := s.items.map resetItem }

/-- Result payload of an acquire call: either the chosen item's `data`
or the structured error object `{ error: "No <name> available" }`. -/
inductive ResultData where
  | payload (p : Json)
  | err (msg : String)
deriving DecidableEq, Repr

structure AcquireResult where
  success : Bool
  data : ResultData
deriving DecidableEq, Repr

/-- Steps 2–6 of `getItemFromCollection` (candidate query, selection,
assignment, reset-and-retry, structured failure). `r1` and `r2` model
the two `Math.floor(Math.random() * items.length)` draws as arbitrary
naturals reduced modulo the list length; draw 0 recovers the older
`findOne` first-in-store-order variant. The third component reports the
id of the item assigned, for the bookkeeping of the trace semantics. -/
def acquireSelect (s : Store) (collectionName userId : String) (r1 r2 : Nat) :
    AcquireResult × Store × Option Nat :=
  let cands := s.items.filter (isCandidate userId)
  if h : cands.length ≠ 0 then
    let item := cands.get ⟨r1 % cands.length, Nat.mod_lt _ (Nat.pos_of_ne_zero h)⟩
    ({ success := true, data := .payload item.data },
     { s with items := updateFirstById s.items item.id (setUsedAssigned userId) },
     some item.id)
  else
    let s' := resetAll s
    if h2 : s'.items.length ≠ 0 then
      let item := s'.items.get ⟨r2 % s'.items.length, Nat.mod_lt _ (Nat.pos_of_ne_zero h2)⟩
      ({ success := true, data := .payload item.data },
       { s' with items := updateFirstById s'.items item.id (setUsedAssigned userId) },
       some item.id)
    else
      ({ success := false, data := .err ("No " ++ collectionName ++ " available") },
       s', none)

/-- Step 1 of `getItemFromCollection`: lazy seeding when the collection
is empty (`countDocuments() === 0`). -/
def seedIfEmpty (s : Store) (sample : List SampleItem) : Store :=
  if s.items.length = 0 then insertSampleItems s sample else s

/-- `getItemFromCollection(collection, userId, sampleData)`. -/
def getItemFromCollection (s : Store) (collectionName userId : String)
    (sample : List SampleItem) (r1 r2 : Nat) : AcquireResult × Store :=
  let s1 := seedIfEmpty s sample
  let r := acquireSelect s1 collectionName userId r1 r2
  (r.1, r.2.1)

structure CreateResult where
  success : Bool
  insertedCount : Nat
  insertedIds : List Nat
deriving DecidableEq, Repr

/-- The `insertMany` of `createItems`: each payload becomes an item with
`used: false`, `assignedTo: undefined`, `createdBy: userId`,
`createdAt: now`; returns the inserted ids. -/
def insertCreated : Store → String → List Json → Nat → List Nat × Store
  | s, _, [], _ => ([], s)
  | s, userId, p :: ps, now =>
    let it : Item :=
      { id := s.nextId, data := p, used := false,
        assignedTo := none, createdBy := some userId, createdAt := some now }
    let r := insertCreated
      { items := s.items ++ [it], nextId := s.nextId + 1 } userId ps now
    (s.nextId :: r.1, r.2)

/-- `createItems(collection, userId, items)`. -/
def createItems (s : Store) (userId : String) (payloads : List Json) (now : Nat) :
    CreateResult × Store :=
  let r := insertCreated s userId payloads now
  ({ success := true, insertedCount := r.1.length, insertedIds := r.1 }, r.2)

/-- Per-collection body of `initializeCollections`: seed the sample data
if and only if the collection is currently empty. -/
def initializeCollection (s : Store) (sample : List SampleItem) : Store :=
  if s.items.length = 0 then insertSampleItems s sample else s

structure UpdateResult where
  success : Bool
  modifiedCount : Nat
deriving DecidableEq, Repr

/-- `markAllItemsAsUsed(collection)`:
`updateMany({ used: false }, $set { used: true })` — note it does not
touch `assignedTo`. -/
def markAllItemsAsUsed (s : Store) : UpdateResult × Store :=
  ({ success := true, modifiedCount := s.items.countP (fun it => !it.used) },
   { s with
      items := s.items.map (fun it => if it.used then it else { it with used := true }) })

structure DeleteResult where
  success : Bool
  deletedCount : Nat
deriving DecidableEq, Repr

/-- `deleteItemsByUser(collection, userId)`:
`deleteMany({ createdBy: userId })` — an equality match, which an
absent/NULL `createdBy` never satisfies. -/
def deleteItemsByUser (s : Store) (userId : String) : DeleteResult × Store :=
  ({ success := true,
     deletedCount := s.items.countP (fun it => decide (it.createdBy = some userId)) },
   { s with items := s.items.filter (fun it => decide (it.createdBy ≠ some userId)) })

/-! ## The SQLite table variant

Rows store the payload as text: `data = JSON.stringify(payload)` on
insert, `JSON.parse(row.data)` on return. -/

structure SqliteRow where
  id : Nat
  data : String
  used : Bool
  assignedTo : Option String
  createdBy : Option String
  createdAt : Option Nat
deriving DecidableEq, Repr

structure SqliteTable where
  rows : List SqliteRow
  nextId : Nat
deriving DecidableEq, Repr

/-- A freshly created table (`CREATE TABLE IF NOT EXISTS`,
`AUTOINCREMENT` starting at 1). -/
def emptySqliteTable : SqliteTable := { rows := [], nextId := 1 }

/-- `used = FALSE AND (assignedTo IS NULL OR assignedTo != ?)`. -/
def sqliteCandidate (userId : String) (r : SqliteRow) : Bool :=
  !r.used && decide (r.assignedTo ≠ some userId)

/-- Seeding loop of the SQLite branch:
`INSERT INTO t (data, used) VALUES (JSON.stringify(item.data), false)`;
`createdAt` takes the `CURRENT_TIMESTAMP` column default. -/
def sqliteSeed (now : Nat) : SqliteTable → List SampleItem → SqliteTable
  | t, [] => t
  | t, e :: es =>
    let row : SqliteRow :=
      { id := t.nextId, data := Json.stringify e.data,
        used := false, assignedTo := none, createdBy := none,
        createdAt := some now }
    sqliteSeed now { rows := t.rows ++ [row], nextId := t.nextId + 1 } es

/-- `UPDATE t SET used = TRUE, assignedTo = ? WHERE id = ?` (`id` is the
primary key, so at most one row matches). -/
def sqliteUpdateRow (rows : List SqliteRow) (rid : Nat) (userId : String) :
    List SqliteRow :=
  rows.map fun r =>
    if r.id = rid then { r with used := true, assignedTo := some userId } else r

/-- `UPDATE t SET used = FALSE, assignedTo = NULL`. -/
def sqliteResetRows (rows : List SqliteRow) : List SqliteRow :=
  rows.map fun r => { r with used := false, assignedTo := none }

inductive SqliteResultData where
  | payload (p : Option Json)
  | err (msg : String)
deriving DecidableEq, Repr

structure SqliteAcquireResult where
  success : Bool
  data : SqliteResultData
deriving DecidableEq, Repr

/-- Selection part of the SQLite branch of `getItemFromCollection`
(after the seeding check): pick an arbitrary candidate
(`ORDER BY RANDOM() LIMIT 1`, modelled by `r1`/`r2` modulo the match
count), mark it, and return `JSON.parse(row.data)`; on an exhausted pool
reset all rows and retry without the assignment exclusion. -/
def sqliteSelect (t1 : SqliteTable) (collectionName userId : String)
    (r1 r2 : Nat) : SqliteAcquireResult × SqliteTable :=
  let cands := t1.rows.filter (sqliteCandidate userId)
  if h : cands.length ≠ 0 then
    let row := cands.get ⟨r1 % cands.length, Nat.mod_lt _ (Nat.pos_of_ne_zero h)⟩
    ({ success := true, data := .payload (Json.parse row.data) },
     { t1 with rows := sqliteUpdateRow t1.rows row.id userId })
  else
    let t2 : SqliteTable := { t1 with rows := sqliteResetRows t1.rows }
    if h2 : t2.rows.length ≠ 0 then
      let row := t2.rows.get ⟨r2 % t2.rows.length, Nat.mod_lt _ (Nat.pos_of_ne_zero h2)⟩
      ({ success := true, data := .payload (Json.parse row.data) },
       { t2 with rows := sqliteUpdateRow t2.rows row.id userId })
    else
      ({ success := false, data := .err ("No " ++ collectionName ++ " available") },
       t2)

/-- The SQLite branch of `getItemFromCollection`: seed if the row count
is zero, then select. -/
def sqliteGetItem (t : SqliteTable) (collectionName userId : String)
    (sample : List SampleItem) (now r1 r2 : Nat) :
    SqliteAcquireResult × SqliteTable :=
  let t1 := if t.rows.length = 0 then sqliteSeed now t sample else t
  sqliteSelect t1 collectionName userId r1 r2

/-- The SQLite branch of `createItems`: one
`INSERT INTO t (data, used, createdBy, createdAt)
VALUES (JSON.stringify(item.data), FALSE, ?, CURRENT_TIMESTAMP)` per
payload, collecting `lastID`s. -/
def sqliteCreateItems : SqliteTable → String → List Json → Nat → List Nat × SqliteTable
  | t, _, [], _ => ([], t)
  | t, userId, p :: ps, now =>
    let row : SqliteRow :=
      { id := t.nextId, data := Json.stringify p,
        used := false, assignedTo := none, createdBy := some userId,
        createdAt := some now }
    let r := sqliteCreateItems
      { rows := t.rows ++ [row], nextId := t.nextId + 1 } userId ps now
    (t.nextId :: r.1, r.2)

/-! ## The connection-state machines (`src/db/database.ts`) -/

structure MongoCollectionHandle where
  name : String
deriving DecidableEq, Repr

/-- `MongoDBClient`: holds only the `isConnectedFlag` the class
maintains. -/
structure MongoDBClient where
  isConnectedFlag : Bool
deriving DecidableEq, Repr

/-- The constructor: `isConnectedFlag = false`. -/
def MongoDBClient.init : MongoDBClient := { isConnectedFlag := false }

/-- `connect()` sets the flag. -/
def MongoDBClient.connect (_ : MongoDBClient) : MongoDBClient :=
  { isConnectedFlag := true }

/-- `getCollection(name)`: returns
`this.client.db(dbName).collection(name)` unconditionally — the method
performs no connectivity check. -/
def MongoDBClient.getCollection (_ : MongoDBClient) (name : String) :
    Except String MongoCollectionHandle := .ok { name := name }

def MongoDBClient.isConnected (c : MongoDBClient) : Bool := c.isConnectedFlag

/-- `SQLiteClient`: `db` is `null` until `connect()` succeeds. -/
structure SQLiteClient where
  db : Option Unit
deriving DecidableEq, Repr

/-- The constructor: `db = null`. -/
def SQLiteClient.init : SQLiteClient := { db := none }

/-- `connect()` opens the database. -/
def SQLiteClient.connect (_ : SQLiteClient) : SQLiteClient := { db := some () }

/-- `getCollection(name)`: throws `'Database not connected'` when `db`
is `null`, otherwise returns the handle. -/
def SQLiteClient.getCollection (c : SQLiteClient) (_ : String) :
    Except String Unit :=
  match c.db with
  | none => .error "Database not connected"
  | some d => .ok d

def SQLiteClient.isConnected (c : SQLiteClient) : Bool := c.db.isSome

/-! ## Trace semantics over one collection

Sequential interleavings of the five operations, for the reachable-state
invariants. The ghost map records, per item id, the user of the last
assignment transition (`$set { used: true, assignedTo: userId }`) —
bookkeeping only, never read by an operation. -/

inductive Op where
  | acquire (collectionName userId : String) (sample : List SampleItem) (r1 r2 : Nat)
  | create (userId : String) (payloads : List Json) (now : Nat)
  | initCollection (sample : List SampleItem)
  | markAllUsed
  | deleteByUser (userId : String)

/-- State transition of one operation. -/
def applyOp (s : Store) : Op → Store
  | .acquire cn u sample r1 r2 => (getItemFromCollection s cn u sample r1 r2).2
  | .create u ps now => (createItems s u ps now).2
  | .initCollection sample => initializeCollection s sample
  | .markAllUsed => (markAllItemsAsUsed s).2
  | .deleteByUser u => (deleteItemsByUser s u).2

/-- Per-id record of the last assignment transition. -/
def Ghost : Type := Nat → Option String

/-- Ghost update of an acquire call: the assigned item's id (if any)
maps to the requesting user. -/
def acquireGhost (s : Store) (collectionName userId : String)
    (sample : List SampleItem) (r1 r2 : Nat) (g : Ghost) : Ghost :=
  match (acquireSelect (seedIfEmpty s sample) collectionName userId r1 r2).2.2 with
  | some tid => fun n => if n = tid then some userId else g n
  | none => g

/-- Instrumented transition: the store component is exactly `applyOp`. -/
def applyOpG (sg : Store × Ghost) (op : Op) : Store × Ghost :=
  match op with
  | .acquire cn u sample r1 r2 =>
    (applyOp sg.1 (.acquire cn u sample r1 r2), acquireGhost sg.1 cn u sample r1 r2 sg.2)
  | op => (applyOp sg.1 op, sg.2)

/-- States reachable from the empty collection by any operation
sequence. -/
inductive ReachableG : Store × Ghost → Prop where
  | init : ReachableG (emptyStore, fun _ => none)
  | step {sg : Store × Ghost} (h : ReachableG sg) (op : Op) : ReachableG (applyOpG sg op)

/-- Well-formedness: ids are distinct and below the fresh-id counter. -/
def StoreWF (s : Store) : Prop :=
  (s.items.map (·.id)).Nodup ∧ ∀ it ∈ s.items, it.id < s.nextId

/-- The assignment invariant: every item whose `assignedTo` field is set
carries the user recorded by the ghost map as its last assigner. -/
def GhostInv (s : Store) (g : Ghost) : Prop :=
  ∀ it ∈ s.items, ∀ v, it.assignedTo = some v → g it.id = some v

/-! ### Bookkeeping forms of the insertion loops (proof layer only:
closed forms for what the insertion operations append) -/

/-- The items `insertSampleItems` appends, starting at a given fresh id. -/
def seededItemsFrom : Nat → List SampleItem → List Item
  | _, [] => []
  | nid, e :: es =>
    { id := nid, data := e.data, used := e.used, assignedTo := none,
      createdBy := none, createdAt := none } :: seededItemsFrom (nid + 1) es

/-- The items `insertCreated` appends, starting at a given fresh id. -/
def createdItemsFrom (userId : String) (now : Nat) : Nat → List Json → List Item
  | _, [] => []
  | nid, p :: ps =>
    { id := nid, data := p, used := false, assignedTo := none,
      createdBy := some userId, createdAt := some now }
      :: createdItemsFrom userId now (nid + 1) ps

/-- Consecutive ids handed out by an insertion loop. -/
def idsFrom : Nat → Nat → List Nat
  | _, 0 => []
  | nid, k + 1 => nid :: idsFrom (nid + 1) k

/-- The rows `sqliteSeed` appends, starting at a given fresh id. -/
def seededRowsFrom (now : Nat) : Nat → List SampleItem → List SqliteRow
  | _, [] => []
  | nid, e :: es =>
    { id := nid, data := Json.stringify e.data, used := false,
      assignedTo := none, createdBy := none, createdAt := some now }
      :: seededRowsFrom now (nid + 1) es

/-- The rows `sqliteCreateItems` appends, starting at a given fresh id. -/
def createdRowsFrom (userId : String) (now : Nat) : Nat → List Json → List SqliteRow
  | _, [] => []
  | nid, p :: ps =>
    { id := nid, data := Json.stringify p, used := false, assignedTo := none,
      createdBy := some userId, createdAt := some now }
      :: createdRowsFrom userId now (nid + 1) ps

/-! ## Sample data (`src/models/question.ts`, `src/models/event.ts`) -/

/-- `questionSampleData`. -/
def questionSampleData : List SampleItem :=
  [ { data := .obj (.cons "message" (.str "Question 1") .nil), used := false },
    { data := .obj (.cons "message" (.str "Question 2") .nil), used := false },
    { data := .obj (.cons "message" (.str "Question 3") .nil), used := false } ]

/-- `eventSampleData` (the full event variant). -/
def eventSampleData : List SampleItem :=
  [ { data := .obj (.cons "message" (.str "Pay luxury tax")
        (.cons "type" (.str "chance")
        (.cons "amount" (.num 2400)
        (.cons "baseAmount" (.num 2000) .nil)))), used := false },
    { data := .obj (.cons "message" (.str "Property auction")
        (.cons "type" (.str "auction")
        (.cons "amount" (.num 1600)
        (.cons "baseAmount" (.num 2000)
        (.cons "property" (.str "Park Place") .nil))))), used := false },
    { data := .obj (.cons "message" (.str "Bank error in your favor")
        (.cons "type" (.str "community_chest")
        (.cons "amount" (.num 1200)
        (.cons "baseAmount" (.num 1000) .nil)))), used := false } ]

/-! ## Theorems

### Character-level lemmas -/

theorem char_toNat_ofNat_lt {n : Nat} (h : n < 55296) :
    (Char.ofNat n).toNat = n := by
  have hv : n.isValidChar := Or.inl h
  simp [Char.ofNat, Char.ofNatAux, hv, Char.toNat, UInt32.toNat]

theorem char_eq_of_toNat_eq {c d : Char} (h : c.toNat = d.toNat) : c = d := by
  have hv : c.val = d.val := by
    apply UInt32.eq_of_toBitVec_eq
    apply BitVec.eq_of_toNat_eq
    exact h
  exact Char.ext hv

theorem char_ofNat_toNat {c : Char} (h : c.toNat < 55296) :
    Char.ofNat c.toNat = c :=
  char_eq_of_toNat_eq (char_toNat_ofNat_lt h)

theorem char_ne_of_toNat_ne {c d : Char} (h : c.toNat ≠ d.toNat) : c ≠ d :=
  fun he => h (he ▸ rfl)

theorem isDigitC_bounds {c : Char} (h : isDigitC c = true) :
    48 ≤ c.toNat ∧ c.toNat ≤ 57 := by
  simpa [isDigitC] using h

theorem digitChar_toNat {d : Nat} (h : d < 10) : (digitChar d).toNat = 48 + d :=
  char_toNat_ofNat_lt (by omega)

theorem isDigitC_digitChar {d : Nat} (h : d < 10) :
    isDigitC (digitChar d) = true := by
  simp [isDigitC, digitChar_toNat h]
  omega

theorem digitVal_digitChar {d : Nat} (h : d < 10) : digitVal (digitChar d) = d := by
  simp [digitVal, digitChar_toNat h]

theorem hexChar_toNat {d : Nat} (h : d < 16) :
    (hexChar d).toNat = if d < 10 then 48 + d else 87 + d := by
  by_cases hd : d < 10 <;> simp [hexChar, hd] <;> exact char_toNat_ofNat_lt (by omega)

theorem isHexC_hexChar {d : Nat} (h : d < 16) : isHexC (hexChar d) = true := by
  by_cases hd : d < 10 <;>
    simp [isHexC, isDigitC, hexChar_toNat h, hd] <;> omega

theorem hexVal_hexChar {d : Nat} (h : d < 16) : hexVal (hexChar d) = d := by
  by_cases hd : d < 10 <;>
    simp [hexVal, isDigitC, hexChar_toNat h, hd] <;> omega

/-! ### Decimal digit runs -/

theorem digitsToNatFrom_append (acc : Nat) (A B : List Char) :
    digitsToNatFrom acc (A ++ B) = digitsToNatFrom (digitsToNatFrom acc A) B := by
  induction A generalizing acc with
  | nil => rfl
  | cons c cs ih =>
    show digitsToNatFrom (10 * acc + digitVal c) (cs ++ B)
      = digitsToNatFrom (digitsToNatFrom (10 * acc + digitVal c) cs) B
    exact ih _

theorem natToCharsAux_spec (fuel : Nat) :
    ∀ n, n < fuel →
      natToCharsAux fuel n ≠ [] ∧
      (∀ c ∈ natToCharsAux fuel n, isDigitC c = true) ∧
      ∀ acc, digitsToNatFrom acc (natToCharsAux fuel n)
        = acc * 10 ^ (natToCharsAux fuel n).length + n := by
  induction fuel with
  | zero => intro n hn; omega
  | succ fuel ih =>
    intro n hn
    by_cases h10 : n < 10
    · refine ⟨by simp [natToCharsAux, h10], ?_, ?_⟩
      · intro c hc
        simp [natToCharsAux, h10] at hc
        subst hc
        exact isDigitC_digitChar h10
      · intro acc
        have hunf : natToCharsAux (fuel + 1) n = [digitChar n] := by
          simp [natToCharsAux, h10]
        rw [hunf]
        have hone : digitsToNatFrom acc [digitChar n]
            = 10 * acc + digitVal (digitChar n) := rfl
        rw [hone, digitVal_digitChar h10]
        simp
        omega
    · have hdiv : n / 10 < n := Nat.div_lt_self (by omega) (by omega)
      have hrec := ih (n / 10) (by omega)
      refine ⟨by simp [natToCharsAux, h10], ?_, ?_⟩
      · intro c hc
        simp [natToCharsAux, h10] at hc
        rcases hc with hc | hc
        · exact hrec.2.1 c hc
        · subst hc
          exact isDigitC_digitChar (Nat.mod_lt _ (by omega))
      · intro acc
        have hunf : natToCharsAux (fuel + 1) n
            = natToCharsAux fuel (n / 10) ++ [digitChar (n % 10)] := by
          simp [natToCharsAux, h10]
        rw [hunf, digitsToNatFrom_append, hrec.2.2 acc]
        have hstep : digitsToNatFrom (acc * 10 ^ (natToCharsAux fuel (n / 10)).length + n / 10)
            [digitChar (n % 10)]
            = 10 * (acc * 10 ^ (natToCharsAux fuel (n / 10)).length + n / 10)
              + digitVal (digitChar (n % 10)) := rfl
        rw [hstep, digitVal_digitChar (Nat.mod_lt n (show 0 < 10 by omega)),
          List.length_append]
        have hexp : 10 * (acc * 10 ^ (natToCharsAux fuel (n / 10)).length + n / 10) + n % 10
            = acc * (10 ^ (natToCharsAux fuel (n / 10)).length * 10)
              + (10 * (n / 10) + n % 10) := by ring
        rw [hexp]
        have hmod : 10 * (n / 10) + n % 10 = n := by omega
        rw [hmod]
        simp [pow_succ]

theorem natToChars_ne_nil (n : Nat) : natToChars n ≠ [] :=
  (natToCharsAux_spec (n + 1) n (by omega)).1

theorem natToChars_digits (n : Nat) : ∀ c ∈ natToChars n, isDigitC c = true :=
  (natToCharsAux_spec (n + 1) n (by omega)).2.1

theorem digitsToNat_natToChars (n : Nat) : digitsToNat (natToChars n) = n := by
  have h := (natToCharsAux_spec (n + 1) n (by omega)).2.2 0
  simpa [digitsToNat, natToChars] using h

theorem parseDigits_append_of_digits :
    ∀ (A : List Char), (∀ c ∈ A, isDigitC c = true) →
      ∀ rest, leadDigit rest = false → parseDigits (A ++ rest) = (A, rest) := by
  intro A
  induction A with
  | nil =>
    intro _ rest hrest
    cases rest with
    | nil => rfl
    | cons c cs =>
      simp [leadDigit] at hrest
      simp [parseDigits, hrest]
  | cons c cs ih =>
    intro hA rest hrest
    have hc : isDigitC c = true := hA c (by simp)
    have htl := ih (fun d hd => hA d (by simp [hd])) rest hrest
    simp [parseDigits, hc, htl]

/-! ### String-literal round trip -/

theorem parseStringBody_ord {c : Char} (hq : c ≠ '"') (hb : c ≠ '\\')
    (hc : ¬ c.toNat < 32) (cs : List Char) :
    parseStringBody (c :: cs)
      = match parseStringBody cs with
        | some (s, r) => some (c :: s, r)
        | none => none := by
  rw [parseStringBody.eq_def]
  dsimp only
  rw [if_neg hq, if_neg hb, if_neg hc]

theorem parseStringBody_backslash {e d : Char} (hu : e ≠ 'u')
    (hd : unescapeChar e = some d) (cs' : List Char) :
    parseStringBody ('\\' :: e :: cs')
      = match parseStringBody cs' with
        | some (s, r) => some (d :: s, r)
        | none => none := by
  rw [parseStringBody.eq_def]
  dsimp only
  rw [if_neg (show ('\\' : Char) ≠ '"' by decide)]
  rw [if_pos rfl]
  rw [if_neg hu, hd]

theorem parseStringBody_unicode {h1 h2 h3 h4 : Char}
    (hx1 : isHexC h1 = true) (hx2 : isHexC h2 = true)
    (hx3 : isHexC h3 = true) (hx4 : isHexC h4 = true) (cs'' : List Char) :
    parseStringBody ('\\' :: 'u' :: h1 :: h2 :: h3 :: h4 :: cs'')
      = match parseStringBody cs'' with
        | some (s, r) =>
            some (Char.ofNat
              (hexVal h1 * 4096 + hexVal h2 * 256 + hexVal h3 * 16
                + hexVal h4) :: s, r)
        | none => none := by
  rw [parseStringBody.eq_def]
  dsimp only
  simp [hx1, hx2, hx3, hx4]

theorem parseStringBody_escapeList :
    ∀ (l rest : List Char),
      parseStringBody (escapeList l ++ '"' :: rest) = some (l, rest) := by
  intro l
  induction l with
  | nil =>
    intro rest
    show parseStringBody ('"' :: rest) = some ([], rest)
    rw [parseStringBody.eq_def]
    dsimp only
    rw [if_pos rfl]
  | cons c cs ih =>
    intro rest
    show parseStringBody ((escapeChar c ++ escapeList cs) ++ '"' :: rest) = _
    rw [List.append_assoc]
    by_cases h1 : c = '"'
    · subst h1
      rw [show escapeChar '"' = ['\\', '"'] by rfl]
      rw [show (['\\', '"'] : List Char) ++ (escapeList cs ++ '"' :: rest)
        = '\\' :: '"' :: (escapeList cs ++ '"' :: rest) by rfl]
      rw [parseStringBody_backslash (by decide) (by rfl), ih rest]
    · by_cases h2 : c = '\\'
      · subst h2
        rw [show escapeChar '\\' = ['\\', '\\'] by rfl]
        rw [show (['\\', '\\'] : List Char) ++ (escapeList cs ++ '"' :: rest)
          = '\\' :: '\\' :: (escapeList cs ++ '"' :: rest) by rfl]
        rw [parseStringBody_backslash (by decide) (by rfl), ih rest]
      · by_cases h3 : c = Char.ofNat 8
        · subst h3
          rw [show escapeChar (Char.ofNat 8) = ['\\', 'b'] by rfl]
          rw [show (['\\', 'b'] : List Char) ++ (escapeList cs ++ '"' :: rest)
            = '\\' :: 'b' :: (escapeList cs ++ '"' :: rest) by rfl]
          rw [parseStringBody_backslash (by decide) (by rfl), ih rest]
        · by_cases h4 : c = Char.ofNat 9
          · subst h4
            rw [show escapeChar (Char.ofNat 9) = ['\\', 't'] by rfl]
            rw [show (['\\', 't'] : List Char) ++ (escapeList cs ++ '"' :: rest)
              = '\\' :: 't' :: (escapeList cs ++ '"' :: rest) by rfl]
            rw [parseStringBody_backslash (by decide) (by rfl), ih rest]
          · by_cases h5 : c = Char.ofNat 10
            · subst h5
              rw [show escapeChar (Char.ofNat 10) = ['\\', 'n'] by rfl]
              rw [show (['\\', 'n'] : List Char) ++ (escapeList cs ++ '"' :: rest)
                = '\\' :: 'n' :: (escapeList cs ++ '"' :: rest) by rfl]
              rw [parseStringBody_backslash (by decide) (by rfl), ih rest]
            · by_cases h6 : c = Char.ofNat 12
              · subst h6
                rw [show escapeChar (Char.ofNat 12) = ['\\', 'f'] by rfl]
                rw [show (['\\', 'f'] : List Char) ++ (escapeList cs ++ '"' :: rest)
                  = '\\' :: 'f' :: (escapeList cs ++ '"' :: rest) by rfl]
                rw [parseStringBody_backslash (by decide) (by rfl), ih rest]
              · by_cases h7 : c = Char.ofNat 13
                · subst h7
                  rw [show escapeChar (Char.ofNat 13) = ['\\', 'r'] by rfl]
                  rw [show (['\\', 'r'] : List Char) ++ (escapeList cs ++ '"' :: rest)
                    = '\\' :: 'r' :: (escapeList cs ++ '"' :: rest) by rfl]
                  rw [parseStringBody_backslash (by decide) (by rfl), ih rest]
                · by_cases h8 : c.toNat < 32
                  · have hesc : escapeChar c
                        = ['\\', 'u', '0', '0', hexChar (c.toNat / 16),
                           hexChar (c.toNat % 16)] := by
                      unfold escapeChar
                      rw [if_neg h1, if_neg h2, if_neg h3, if_neg h4, if_neg h5,
                        if_neg h6, if_neg h7, if_pos h8]
                    rw [hesc]
                    rw [show (['\\', 'u', '0', '0', hexChar (c.toNat / 16),
                        hexChar (c.toNat % 16)] : List Char)
                        ++ (escapeList cs ++ '"' :: rest)
                      = '\\' :: 'u' :: '0' :: '0' :: hexChar (c.toNat / 16)
                        :: hexChar (c.toNat % 16)
                        :: (escapeList cs ++ '"' :: rest) by rfl]
                    rw [parseStringBody_unicode (by decide) (by decide)
                      (isHexC_hexChar (by omega))
                      (isHexC_hexChar (Nat.mod_lt _ (by omega)))]
                    rw [ih rest]
                    have hval : hexVal '0' * 4096 + hexVal '0' * 256
                        + hexVal (hexChar (c.toNat / 16)) * 16
                        + hexVal (hexChar (c.toNat % 16)) = c.toNat := by
                      rw [hexVal_hexChar (by omega),
                        hexVal_hexChar (Nat.mod_lt _ (by omega))]
                      have : hexVal '0' = 0 := by decide
                      rw [this]
                      omega
                    rw [hval, char_ofNat_toNat (by omega)]
                  · have hesc : escapeChar c = [c] := by
                      unfold escapeChar
                      rw [if_neg h1, if_neg h2, if_neg h3, if_neg h4, if_neg h5,
                        if_neg h6, if_neg h7, if_neg h8]
                    rw [hesc]
                    rw [show ([c] : List Char) ++ (escapeList cs ++ '"' :: rest)
                      = c :: (escapeList cs ++ '"' :: rest) by rfl]
                    rw [parseStringBody_ord h1 h2 h8, ih rest]

/-! ### Parser equation lemmas -/

theorem parseJson_null (fuel : Nat) (cs : List Char) :
    parseJson (fuel + 1) ('n' :: cs)
      = match expectChars ['u', 'l', 'l'] cs with
        | some r => some (Json.null, r)
        | none => none := by
  rw [parseJson.eq_def]
  dsimp only
  rw [if_pos rfl]

theorem parseJson_true (fuel : Nat) (cs : List Char) :
    parseJson (fuel + 1) ('t' :: cs)
      = match expectChars ['r', 'u', 'e'] cs with
        | some r => some (Json.bool true, r)
        | none => none := by
  rw [parseJson.eq_def]
  dsimp only
  rw [if_neg (by decide), if_pos rfl]

theorem parseJson_false (fuel : Nat) (cs : List Char) :
    parseJson (fuel + 1) ('f' :: cs)
      = match expectChars ['a', 'l', 's', 'e'] cs with
        | some r => some (Json.bool false, r)
        | none => none := by
  rw [parseJson.eq_def]
  dsimp only
  rw [if_neg (by decide), if_neg (by decide), if_pos rfl]

theorem parseJson_quote (fuel : Nat) (cs : List Char) :
    parseJson (fuel + 1) ('"' :: cs)
      = match parseStringBody cs with
        | some (s, r) => some (Json.str (String.mk s), r)
        | none => none := by
  rw [parseJson.eq_def]
  dsimp only
  rw [if_neg (by decide), if_neg (by decide), if_neg (by decide), if_pos rfl]

theorem parseJson_neg (fuel : Nat) (cs : List Char) :
    parseJson (fuel + 1) ('-' :: cs)
      = match parseDigits cs with
        | ([], _) => none
        | (ds, rest) => some (Json.num (-(digitsToNat ds : Int)), rest) := by
  rw [parseJson.eq_def]
  dsimp only
  rw [if_neg (by decide), if_neg (by decide), if_neg (by decide),
    if_neg (by decide), if_pos rfl]

theorem parseJson_digit {c : Char} (hd : isDigitC c = true) (fuel : Nat)
    (cs : List Char) :
    parseJson (fuel + 1) (c :: cs)
      = match parseDigits (c :: cs) with
        | (ds, rest) => some (Json.num (digitsToNat ds : Int), rest) := by
  obtain ⟨hl, hr⟩ := isDigitC_bounds hd
  have h1 : c ≠ 'n' := by intro h; rw [h] at hr; exact absurd hr (by decide)
  have h2 : c ≠ 't' := by intro h; rw [h] at hr; exact absurd hr (by decide)
  have h3 : c ≠ 'f' := by intro h; rw [h] at hr; exact absurd hr (by decide)
  have h4 : c ≠ '"' := by intro h; rw [h] at hl; exact absurd hl (by decide)
  have h5 : c ≠ '-' := by intro h; rw [h] at hl; exact absurd hl (by decide)
  rw [parseJson.eq_def]
  dsimp only
  rw [if_neg h1, if_neg h2, if_neg h3, if_neg h4, if_neg h5, if_pos hd]

theorem parseJson_arr (fuel : Nat) (cs : List Char) :
    parseJson (fuel + 1) ('[' :: cs)
      = match parseElems fuel cs with
        | some (es, r) => some (Json.arr es, r)
        | none => none := by
  rw [parseJson.eq_def]
  dsimp only
  rw [if_neg (by decide), if_neg (by decide), if_neg (by decide),
    if_neg (by decide), if_neg (by decide), if_neg (by decide), if_pos rfl]

theorem parseJson_obj (fuel : Nat) (cs : List Char) :
    parseJson (fuel + 1) ('\x7b' :: cs)
      = match parseFields fuel cs with
        | some (fs, r) => some (Json.obj fs, r)
        | none => none := by
  rw [parseJson.eq_def]
  dsimp only
  rw [if_neg (by decide), if_neg (by decide), if_neg (by decide),
    if_neg (by decide), if_neg (by decide), if_neg (by decide),
    if_neg (by decide), if_pos rfl]

theorem parseElems_close (fuel : Nat) (cs : List Char) :
    parseElems (fuel + 1) (']' :: cs) = some (.nil, cs) := by
  rw [parseElems.eq_def]
  dsimp only
  rw [if_pos rfl]

theorem parseElems_go {c : Char} (h : c ≠ ']') (fuel : Nat) (cs : List Char) :
    parseElems (fuel + 1) (c :: cs)
      = match parseJson fuel (c :: cs) with
        | some (j, r) =>
            (match parseElemsRest fuel r with
             | some (tl, r') => some (JsonElems.cons j tl, r')
             | none => none)
        | none => none := by
  rw [parseElems.eq_def]
  dsimp only
  rw [if_neg h]

theorem parseElemsRest_close (fuel : Nat) (cs : List Char) :
    parseElemsRest (fuel + 1) (']' :: cs) = some (.nil, cs) := by
  rw [parseElemsRest.eq_def]
  dsimp only
  rw [if_pos rfl]

theorem parseElemsRest_comma (fuel : Nat) (cs : List Char) :
    parseElemsRest (fuel + 1) (',' :: cs)
      = match parseJson fuel cs with
        | some (j, r) =>
            (match parseElemsRest fuel r with
             | some (tl, r') => some (JsonElems.cons j tl, r')
             | none => none)
        | none => none := by
  rw [parseElemsRest.eq_def]
  dsimp only
  rw [if_neg (by decide), if_pos rfl]

theorem parseFields_close (fuel : Nat) (cs : List Char) :
    parseFields (fuel + 1) ('\x7d' :: cs) = some (.nil, cs) := by
  rw [parseFields.eq_def]
  dsimp only
  rw [if_pos rfl]

theorem parseFields_key (fuel : Nat) (cs : List Char) :
    parseFields (fuel + 1) ('"' :: cs)
      = match parseStringBody cs with
        | some (k, r) =>
          (match r with
           | ':' :: r' =>
             (match parseJson fuel r' with
              | some (v, r'') =>
                (match parseFieldsRest fuel r'' with
                 | some (tl, r3) => some (.cons (String.mk k) v tl, r3)
                 | none => none)
              | none => none)
           | _ => none)
        | none => none := by
  rw [parseFields.eq_def]
  dsimp only
  rw [if_neg (by decide), if_pos rfl]

theorem parseFieldsRest_close (fuel : Nat) (cs : List Char) :
    parseFieldsRest (fuel + 1) ('\x7d' :: cs) = some (.nil, cs) := by
  rw [parseFieldsRest.eq_def]
  dsimp only
  rw [if_pos rfl]

theorem parseFieldsRest_comma (fuel : Nat) (cs' : List Char) :
    parseFieldsRest (fuel + 1) (',' :: '"' :: cs')
      = match parseStringBody cs' with
        | some (k, r) =>
          (match r with
           | ':' :: r' =>
             (match parseJson fuel r' with
              | some (v, r'') =>
                (match parseFieldsRest fuel r'' with
                 | some (tl, r3) => some (.cons (String.mk k) v tl, r3)
                 | none => none)
              | none => none)
           | _ => none)
        | none => none := by
  rw [parseFieldsRest.eq_def]
  dsimp only
  rw [if_neg (by decide), if_pos rfl]
  rfl

/-! ### Heads of serialised values -/

theorem fuelJson_pos (j : Json) : 1 ≤ fuelJson j := by
  cases j <;> simp [fuelJson]

theorem fuelElems_pos (es : JsonElems) : 1 ≤ fuelElems es := by
  cases es <;> simp [fuelElems]

theorem fuelElemsRest_pos (es : JsonElems) : 1 ≤ fuelElemsRest es := by
  cases es <;> simp [fuelElemsRest]

theorem fuelFields_pos (fs : JsonFields) : 1 ≤ fuelFields fs := by
  cases fs <;> simp [fuelFields]

theorem fuelFieldsRest_pos (fs : JsonFields) : 1 ≤ fuelFieldsRest fs := by
  cases fs <;> simp [fuelFieldsRest]

theorem stringifyChars_head (j : Json) :
    ∃ c cs, stringifyChars j = c :: cs ∧ c ≠ ']' := by
  cases j with
  | null => exact ⟨'n', _, rfl, by decide⟩
  | bool b => cases b with
    | true => exact ⟨'t', _, rfl, by decide⟩
    | false => exact ⟨'f', _, rfl, by decide⟩
  | num n =>
    show ∃ c cs, intToChars n = c :: cs ∧ c ≠ ']'
    by_cases hn : n < 0
    · refine ⟨'-', natToChars (-n).toNat, ?_, by decide⟩
      simp [intToChars, hn]
    · have hne := natToChars_ne_nil n.toNat
      cases hcase : natToChars n.toNat with
      | nil => exact absurd hcase hne
      | cons d ds =>
        have hd : isDigitC d = true := by
          have := natToChars_digits n.toNat d (by rw [hcase]; simp)
          exact this
        obtain ⟨hl, hr⟩ := isDigitC_bounds hd
        refine ⟨d, ds, ?_, ?_⟩
        · simp [intToChars, hn, hcase]
        · intro h
          rw [h] at hr
          exact absurd hr (by decide)
  | str s => exact ⟨'"', _, rfl, by decide⟩
  | arr es => exact ⟨'[', _, rfl, by decide⟩
  | obj fs => exact ⟨'\x7b', _, rfl, by decide⟩

theorem leadDigit_stringifyElemsRest (tl : JsonElems) (rest : List Char) :
    leadDigit (stringifyElemsRest tl ++ rest) = false := by
  cases tl <;> simp [stringifyElemsRest, leadDigit, isDigitC]

theorem leadDigit_stringifyFieldsRest (tl : JsonFields) (rest : List Char) :
    leadDigit (stringifyFieldsRest tl ++ rest) = false := by
  cases tl <;> simp [stringifyFieldsRest, leadDigit, isDigitC]

/-! ### The serialisation round trip -/

mutual

theorem parseJson_stringify (j : Json) (fuel : Nat) (rest : List Char)
    (hfuel : fuelJson j ≤ fuel) (hrest : leadDigit rest = false) :
    parseJson fuel (stringifyChars j ++ rest) = some (j, rest) := by
  cases fuel with
  | zero => have := fuelJson_pos j; omega
  | succ f =>
    cases j with
    | null =>
      show parseJson (f + 1) ('n' :: 'u' :: 'l' :: 'l' :: rest)
        = some (Json.null, rest)
      rw [parseJson_null]
      rfl
    | bool b =>
      cases b with
      | true =>
        show parseJson (f + 1) ('t' :: 'r' :: 'u' :: 'e' :: rest)
          = some (Json.bool true, rest)
        rw [parseJson_true]
        rfl
      | false =>
        show parseJson (f + 1) ('f' :: 'a' :: 'l' :: 's' :: 'e' :: rest)
          = some (Json.bool false, rest)
        rw [parseJson_false]
        rfl
    | num n =>
      by_cases hn : n < 0
      · have hstr : stringifyChars (Json.num n)
            = '-' :: natToChars (-n).toNat := by
          show intToChars n = _
          simp [intToChars, hn]
        rw [hstr, List.cons_append, parseJson_neg,
          parseDigits_append_of_digits _ (natToChars_digits _) rest hrest]
        cases hcase : natToChars (-n).toNat with
        | nil => exact absurd hcase (natToChars_ne_nil _)
        | cons d ds =>
          dsimp only
          have hval : digitsToNat (d :: ds) = (-n).toNat := by
            rw [← hcase]; exact digitsToNat_natToChars _
          rw [hval, Int.toNat_of_nonneg (by omega)]
          simp
      · have hstr : stringifyChars (Json.num n) = natToChars n.toNat := by
          show intToChars n = _
          simp [intToChars, hn]
        cases hcase : natToChars n.toNat with
        | nil => exact absurd hcase (natToChars_ne_nil _)
        | cons d ds =>
          have hd : isDigitC d = true :=
            natToChars_digits _ d (by rw [hcase]; simp)
          rw [hstr, hcase, List.cons_append, parseJson_digit hd,
            ← List.cons_append,
            parseDigits_append_of_digits (d :: ds)
              (by rw [← hcase]; exact natToChars_digits _) rest hrest]
          dsimp only
          have hval : digitsToNat (d :: ds) = n.toNat := by
            rw [← hcase]; exact digitsToNat_natToChars _
          rw [hval, Int.toNat_of_nonneg (by omega)]
    | str s =>
      rw [show stringifyChars (Json.str s)
        = '"' :: (escapeList s.data ++ ['"']) from rfl]
      rw [List.cons_append, parseJson_quote, List.append_assoc]
      rw [show (['"'] : List Char) ++ rest = '"' :: rest from rfl]
      rw [parseStringBody_escapeList]
    | arr es =>
      rw [show stringifyChars (Json.arr es) = '[' :: stringifyElems es from rfl]
      rw [List.cons_append, parseJson_arr]
      have hfe : fuelElems es ≤ f := by
        simp only [fuelJson] at hfuel; omega
      rw [parseElems_stringify es f rest hfe hrest]
    | obj fs =>
      rw [show stringifyChars (Json.obj fs) = '\x7b' :: stringifyFields fs from rfl]
      rw [List.cons_append, parseJson_obj]
      have hff : fuelFields fs ≤ f := by
        simp only [fuelJson] at hfuel; omega
      rw [parseFields_stringify fs f rest hff hrest]
termination_by sizeOf j

theorem parseElems_stringify (es : JsonElems) (fuel : Nat) (rest : List Char)
    (hfuel : fuelElems es ≤ fuel) (hrest : leadDigit rest = false) :
    parseElems fuel (stringifyElems es ++ rest) = some (es, rest) := by
  cases fuel with
  | zero => have := fuelElems_pos es; omega
  | succ f =>
    cases es with
    | nil =>
      show parseElems (f + 1) (']' :: rest) = some (JsonElems.nil, rest)
      rw [parseElems_close]
    | cons hd tl =>
      rw [show stringifyElems (JsonElems.cons hd tl)
        = stringifyChars hd ++ stringifyElemsRest tl from rfl]
      rw [List.append_assoc]
      obtain ⟨c, cs, hhead, hne⟩ := stringifyChars_head hd
      rw [hhead, List.cons_append, parseElems_go hne, ← List.cons_append,
        ← hhead]
      have hfj : fuelJson hd ≤ f := by
        simp only [fuelElems] at hfuel; omega
      have hfr : fuelElemsRest tl ≤ f := by
        simp only [fuelElems] at hfuel; omega
      rw [parseJson_stringify hd f (stringifyElemsRest tl ++ rest) hfj
        (leadDigit_stringifyElemsRest tl rest)]
      dsimp only
      rw [parseElemsRest_stringify tl f rest hfr hrest]
termination_by sizeOf es

theorem parseElemsRest_stringify (es : JsonElems) (fuel : Nat) (rest : List Char)
    (hfuel : fuelElemsRest es ≤ fuel) (hrest : leadDigit rest = false) :
    parseElemsRest fuel (stringifyElemsRest es ++ rest) = some (es, rest) := by
  cases fuel with
  | zero => have := fuelElemsRest_pos es; omega
  | succ f =>
    cases es with
    | nil =>
      show parseElemsRest (f + 1) (']' :: rest) = some (JsonElems.nil, rest)
      rw [parseElemsRest_close]
    | cons hd tl =>
      rw [show stringifyElemsRest (JsonElems.cons hd tl)
        = ',' :: (stringifyChars hd ++ stringifyElemsRest tl) from rfl]
      rw [List.cons_append, List.append_assoc, parseElemsRest_comma]
      have hfj : fuelJson hd ≤ f := by
        simp only [fuelElemsRest] at hfuel; omega
      have hfr : fuelElemsRest tl ≤ f := by
        simp only [fuelElemsRest] at hfuel; omega
      rw [parseJson_stringify hd f (stringifyElemsRest tl ++ rest) hfj
        (leadDigit_stringifyElemsRest tl rest)]
      dsimp only
      rw [parseElemsRest_stringify tl f rest hfr hrest]
termination_by sizeOf es

theorem parseFields_stringify (fs : JsonFields) (fuel : Nat) (rest : List Char)
    (hfuel : fuelFields fs ≤ fuel) (hrest : leadDigit rest = false) :
    parseFields fuel (stringifyFields fs ++ rest) = some (fs, rest) := by
  cases fuel with
  | zero => have := fuelFields_pos fs; omega
  | succ f =>
    cases fs with
    | nil =>
      show parseFields (f + 1) ('\x7d' :: rest) = some (JsonFields.nil, rest)
      rw [parseFields_close]
    | cons k v tl =>
      rw [show stringifyFields (JsonFields.cons k v tl)
        = '"' :: (escapeList k.data ++ ['"', ':'] ++ stringifyChars v
            ++ stringifyFieldsRest tl) from rfl]
      rw [List.cons_append, parseFields_key]
      simp only [List.append_assoc]
      rw [show (['"', ':'] : List Char)
          ++ (stringifyChars v ++ (stringifyFieldsRest tl ++ rest))
        = '"' :: ':' :: (stringifyChars v ++ (stringifyFieldsRest tl ++ rest))
        from rfl]
      rw [parseStringBody_escapeList]
      have hfv : fuelJson v ≤ f := by
        simp only [fuelFields] at hfuel; omega
      have hft : fuelFieldsRest tl ≤ f := by
        simp only [fuelFields] at hfuel; omega
      show (match parseJson f (stringifyChars v ++ (stringifyFieldsRest tl ++ rest)) with
        | some (v', r'') =>
          (match parseFieldsRest f r'' with
           | some (tl', r3) => some (JsonFields.cons (String.mk k.data) v' tl', r3)
           | none => none)
        | none => none) = some (JsonFields.cons k v tl, rest)
      rw [parseJson_stringify v f (stringifyFieldsRest tl ++ rest) hfv
        (leadDigit_stringifyFieldsRest tl rest)]
      dsimp only
      rw [parseFieldsRest_stringify tl f rest hft hrest]
termination_by sizeOf fs

theorem parseFieldsRest_stringify (fs : JsonFields) (fuel : Nat) (rest : List Char)
    (hfuel : fuelFieldsRest fs ≤ fuel) (hrest : leadDigit rest = false) :
    parseFieldsRest fuel (stringifyFieldsRest fs ++ rest) = some (fs, rest) := by
  cases fuel with
  | zero => have := fuelFieldsRest_pos fs; omega
  | succ f =>
    cases fs with
    | nil =>
      show parseFieldsRest (f + 1) ('\x7d' :: rest) = some (JsonFields.nil, rest)
      rw [parseFieldsRest_close]
    | cons k v tl =>
      rw [show stringifyFieldsRest (JsonFields.cons k v tl)
        = ',' :: '"' :: (escapeList k.data ++ ['"', ':'] ++ stringifyChars v
            ++ stringifyFieldsRest tl) from rfl]
      rw [List.cons_append, List.cons_append, parseFieldsRest_comma]
      simp only [List.append_assoc]
      rw [show (['"', ':'] : List Char)
          ++ (stringifyChars v ++ (stringifyFieldsRest tl ++ rest))
        = '"' :: ':' :: (stringifyChars v ++ (stringifyFieldsRest tl ++ rest))
        from rfl]
      rw [parseStringBody_escapeList]
      have hfv : fuelJson v ≤ f := by
        simp only [fuelFieldsRest] at hfuel; omega
      have hft : fuelFieldsRest tl ≤ f := by
        simp only [fuelFieldsRest] at hfuel; omega
      show (match parseJson f (stringifyChars v ++ (stringifyFieldsRest tl ++ rest)) with
        | some (v', r'') =>
          (match parseFieldsRest f r'' with
           | some (tl', r3) => some (JsonFields.cons (String.mk k.data) v' tl', r3)
           | none => none)
        | none => none) = some (JsonFields.cons k v tl, rest)
      rw [parseJson_stringify v f (stringifyFieldsRest tl ++ rest) hfv
        (leadDigit_stringifyFieldsRest tl rest)]
      dsimp only
      rw [parseFieldsRest_stringify tl f rest hft hrest]
termination_by sizeOf fs

end

theorem stringifyChars_length_pos (j : Json) : 1 ≤ (stringifyChars j).length := by
  obtain ⟨c, cs, hhead, _⟩ := stringifyChars_head j
  rw [hhead]
  simp

theorem stringifyElems_length_pos (es : JsonElems) :
    1 ≤ (stringifyElems es).length := by
  cases es with
  | nil => simp [stringifyElems]
  | cons hd tl =>
    have := stringifyChars_length_pos hd
    simp [stringifyElems]
    omega

theorem stringifyElemsRest_length_pos (es : JsonElems) :
    1 ≤ (stringifyElemsRest es).length := by
  cases es <;> simp [stringifyElemsRest]

theorem stringifyFields_length_pos (fs : JsonFields) :
    1 ≤ (stringifyFields fs).length := by
  cases fs <;> simp [stringifyFields]

theorem stringifyFieldsRest_length_pos (fs : JsonFields) :
    1 ≤ (stringifyFieldsRest fs).length := by
  cases fs <;> simp [stringifyFieldsRest]

mutual

theorem fuelJson_le_length (j : Json) : fuelJson j ≤ (stringifyChars j).length := by
  cases j with
  | null => exact stringifyChars_length_pos Json.null
  | bool b => exact stringifyChars_length_pos (Json.bool b)
  | num n => exact stringifyChars_length_pos (Json.num n)
  | str s => exact stringifyChars_length_pos (Json.str s)
  | arr es =>
    have h1 := fuelElems_le_length es
    rw [show stringifyChars (Json.arr es) = '[' :: stringifyElems es from rfl]
    rw [show fuelJson (Json.arr es) = 1 + fuelElems es from rfl]
    simp
    omega
  | obj fs =>
    have h1 := fuelFields_le_length fs
    rw [show stringifyChars (Json.obj fs) = '\x7b' :: stringifyFields fs from rfl]
    rw [show fuelJson (Json.obj fs) = 1 + fuelFields fs from rfl]
    simp
    omega
termination_by sizeOf j

theorem fuelElems_le_length (es : JsonElems) :
    fuelElems es ≤ (stringifyElems es).length := by
  cases es with
  | nil => simp [fuelElems, stringifyElems]
  | cons hd tl =>
    have h1 := fuelJson_le_length hd
    have h2 := fuelElemsRest_le_length tl
    have h3 := stringifyChars_length_pos hd
    have h4 := stringifyElemsRest_length_pos tl
    rw [show stringifyElems (JsonElems.cons hd tl)
      = stringifyChars hd ++ stringifyElemsRest tl from rfl]
    rw [show fuelElems (JsonElems.cons hd tl)
      = 1 + max (fuelJson hd) (fuelElemsRest tl) from rfl]
    simp
    omega
termination_by sizeOf es

theorem fuelElemsRest_le_length (es : JsonElems) :
    fuelElemsRest es ≤ (stringifyElemsRest es).length := by
  cases es with
  | nil => simp [fuelElemsRest, stringifyElemsRest]
  | cons hd tl =>
    have h1 := fuelJson_le_length hd
    have h2 := fuelElemsRest_le_length tl
    have h3 := stringifyChars_length_pos hd
    have h4 := stringifyElemsRest_length_pos tl
    rw [show stringifyElemsRest (JsonElems.cons hd tl)
      = ',' :: (stringifyChars hd ++ stringifyElemsRest tl) from rfl]
    rw [show fuelElemsRest (JsonElems.cons hd tl)
      = 1 + max (fuelJson hd) (fuelElemsRest tl) from rfl]
    simp
    omega
termination_by sizeOf es

theorem fuelFields_le_length (fs : JsonFields) :
    fuelFields fs ≤ (stringifyFields fs).length := by
  cases fs with
  | nil => simp [fuelFields, stringifyFields]
  | cons k v tl =>
    have h1 := fuelJson_le_length v
    have h2 := fuelFieldsRest_le_length tl
    have h3 := stringifyChars_length_pos v
    have h4 := stringifyFieldsRest_length_pos tl
    rw [show stringifyFields (JsonFields.cons k v tl)
      = '"' :: (escapeList k.data ++ ['"', ':'] ++ stringifyChars v
          ++ stringifyFieldsRest tl) from rfl]
    rw [show fuelFields (JsonFields.cons k v tl)
      = 1 + max (fuelJson v) (fuelFieldsRest tl) from rfl]
    simp
    omega
termination_by sizeOf fs

theorem fuelFieldsRest_le_length (fs : JsonFields) :
    fuelFieldsRest fs ≤ (stringifyFieldsRest fs).length := by
  cases fs with
  | nil => simp [fuelFieldsRest, stringifyFieldsRest]
  | cons k v tl =>
    have h1 := fuelJson_le_length v
    have h2 := fuelFieldsRest_le_length tl
    have h3 := stringifyChars_length_pos v
    have h4 := stringifyFieldsRest_length_pos tl
    rw [show stringifyFieldsRest (JsonFields.cons k v tl)
      = ',' :: '"' :: (escapeList k.data ++ ['"', ':'] ++ stringifyChars v
          ++ stringifyFieldsRest tl) from rfl]
    rw [show fuelFieldsRest (JsonFields.cons k v tl)
      = 1 + max (fuelJson v) (fuelFieldsRest tl) from rfl]
    simp
    omega
termination_by sizeOf fs

end

/-- The central serialisation fact: the modelled `JSON.parse` inverts the
modelled `JSON.stringify` on every payload. -/
theorem Json.parse_stringify (j : Json) : Json.parse (Json.stringify j) = some j := by
  unfold Json.parse Json.stringify
  have h := parseJson_stringify j ((stringifyChars j).length + 1) []
    (by have := fuelJson_le_length j; omega) rfl
  rw [show stringifyChars j ++ ([] : List Char) = stringifyChars j from by simp] at h
  rw [show (String.mk (stringifyChars j)).length = (stringifyChars j).length from rfl]
  rw [show (String.mk (stringifyChars j)).data = stringifyChars j from rfl]
  rw [h]

/-! ### Closed forms of the insertion loops -/

theorem insertSampleItems_eq (sample : List SampleItem) :
    ∀ s : Store, insertSampleItems s sample
      = { items := s.items ++ seededItemsFrom s.nextId sample,
          nextId := s.nextId + sample.length } := by
  induction sample with
  | nil => intro s; simp [insertSampleItems, seededItemsFrom]
  | cons e es ih =>
    intro s
    rw [insertSampleItems, ih]
    simp [seededItemsFrom, List.append_assoc]
    omega

theorem insertCreated_eq (ps : List Json) (userId : String) (now : Nat) :
    ∀ s : Store, insertCreated s userId ps now
      = (idsFrom s.nextId ps.length,
         { items := s.items ++ createdItemsFrom userId now s.nextId ps,
           nextId := s.nextId + ps.length }) := by
  induction ps with
  | nil => intro s; simp [insertCreated, createdItemsFrom, idsFrom]
  | cons p ps ih =>
    intro s
    rw [insertCreated, ih]
    simp [createdItemsFrom, idsFrom, List.append_assoc]
    omega

theorem sqliteSeed_eq (sample : List SampleItem) (now : Nat) :
    ∀ t : SqliteTable, sqliteSeed now t sample
      = { rows := t.rows ++ seededRowsFrom now t.nextId sample,
          nextId := t.nextId + sample.length } := by
  induction sample with
  | nil => intro t; simp [sqliteSeed, seededRowsFrom]
  | cons e es ih =>
    intro t
    rw [sqliteSeed, ih]
    simp [seededRowsFrom, List.append_assoc]
    omega

theorem sqliteCreateItems_eq (ps : List Json) (userId : String) (now : Nat) :
    ∀ t : SqliteTable, sqliteCreateItems t userId ps now
      = (idsFrom t.nextId ps.length,
         { rows := t.rows ++ createdRowsFrom userId now t.nextId ps,
           nextId := t.nextId + ps.length }) := by
  induction ps with
  | nil => intro t; simp [sqliteCreateItems, createdRowsFrom, idsFrom]
  | cons p ps ih =>
    intro t
    rw [sqliteCreateItems, ih]
    simp [createdRowsFrom, idsFrom, List.append_assoc]
    omega

theorem seededItemsFrom_length (sample : List SampleItem) :
    ∀ nid, (seededItemsFrom nid sample).length = sample.length := by
  induction sample with
  | nil => intro nid; rfl
  | cons e es ih => intro nid; simp [seededItemsFrom, ih]

theorem createdItemsFrom_length (ps : List Json) (userId : String) (now : Nat) :
    ∀ nid, (createdItemsFrom userId now nid ps).length = ps.length := by
  induction ps with
  | nil => intro nid; rfl
  | cons p ps ih => intro nid; simp [createdItemsFrom, ih]

theorem idsFrom_length (k : Nat) : ∀ nid, (idsFrom nid k).length = k := by
  induction k with
  | zero => intro nid; rfl
  | succ k ih => intro nid; simp [idsFrom, ih]

theorem mem_seededItemsFrom {it : Item} (sample : List SampleItem) :
    ∀ nid, it ∈ seededItemsFrom nid sample →
      it.assignedTo = none ∧ it.createdBy = none
        ∧ nid ≤ it.id ∧ it.id < nid + sample.length
        ∧ ∃ e ∈ sample, it.data = e.data ∧ it.used = e.used := by
  induction sample with
  | nil => intro nid h; simp [seededItemsFrom] at h
  | cons e es ih =>
    intro nid h
    simp only [seededItemsFrom, List.mem_cons] at h
    rcases h with h | h
    · subst h
      refine ⟨rfl, rfl, le_refl _, by simp only [List.length_cons]; omega, ⟨e, by simp, rfl, rfl⟩⟩
    · obtain ⟨h1, h2, h3, h4, e', he', h5⟩ := ih (nid + 1) h
      exact ⟨h1, h2, by omega, by simp only [List.length_cons]; omega, ⟨e', by simp [he'], h5⟩⟩

theorem mem_createdItemsFrom {it : Item} (ps : List Json) (userId : String)
    (now : Nat) :
    ∀ nid, it ∈ createdItemsFrom userId now nid ps →
      it.used = false ∧ it.assignedTo = none ∧ it.createdBy = some userId
        ∧ nid ≤ it.id ∧ it.id < nid + ps.length ∧ it.data ∈ ps := by
  induction ps with
  | nil => intro nid h; simp [createdItemsFrom] at h
  | cons p ps ih =>
    intro nid h
    simp only [createdItemsFrom, List.mem_cons] at h
    rcases h with h | h
    · subst h
      exact ⟨rfl, rfl, rfl, le_refl _, by simp only [List.length_cons]; omega, by simp⟩
    · obtain ⟨h1, h2, h3, h4, h5, h6⟩ := ih (nid + 1) h
      exact ⟨h1, h2, h3, by omega, by simp only [List.length_cons]; omega, by simp [h6]⟩

theorem seededItemsFrom_map_id (sample : List SampleItem) :
    ∀ nid, (seededItemsFrom nid sample).map (·.id) = idsFrom nid sample.length := by
  induction sample with
  | nil => intro nid; rfl
  | cons e es ih => intro nid; simp [seededItemsFrom, idsFrom, ih]

theorem createdItemsFrom_map_id (ps : List Json) (userId : String) (now : Nat) :
    ∀ nid, (createdItemsFrom userId now nid ps).map (·.id)
      = idsFrom nid ps.length := by
  induction ps with
  | nil => intro nid; rfl
  | cons p ps ih => intro nid; simp [createdItemsFrom, idsFrom, ih]

theorem mem_idsFrom {i : Nat} (k : Nat) :
    ∀ nid, i ∈ idsFrom nid k → nid ≤ i ∧ i < nid + k := by
  induction k with
  | zero => intro nid h; simp [idsFrom] at h
  | succ k ih =>
    intro nid h
    simp only [idsFrom, List.mem_cons] at h
    rcases h with h | h
    · omega
    · have := ih (nid + 1) h
      omega

theorem idsFrom_nodup (k : Nat) : ∀ nid, (idsFrom nid k).Nodup := by
  induction k with
  | zero => intro nid; simp [idsFrom]
  | succ k ih =>
    intro nid
    simp only [idsFrom, List.nodup_cons]
    refine ⟨fun hmem => ?_, ih (nid + 1)⟩
    have := mem_idsFrom k (nid + 1) hmem
    omega

/-! ### Operation-level helper lemmas -/

theorem seedIfEmpty_of_ne_nil {s : Store} (h : s.items ≠ [])
    (sample : List SampleItem) : seedIfEmpty s sample = s := by
  have : s.items.length ≠ 0 := by
    intro hz
    exact h (List.length_eq_zero.mp hz)
  simp [seedIfEmpty, this]

theorem seedIfEmpty_of_nil {s : Store} (h : s.items = [])
    (sample : List SampleItem) :
    seedIfEmpty s sample = insertSampleItems s sample := by
  simp [seedIfEmpty, h]

theorem getItemFromCollection_eq (s : Store) (cn u : String)
    (sample : List SampleItem) (r1 r2 : Nat) :
    getItemFromCollection s cn u sample r1 r2
      = ((acquireSelect (seedIfEmpty s sample) cn u r1 r2).1,
         (acquireSelect (seedIfEmpty s sample) cn u r1 r2).2.1) := rfl

theorem updateFirstById_length (l : List Item) (tid : Nat) (f : Item → Item) :
    (updateFirstById l tid f).length = l.length := by
  induction l with
  | nil => rfl
  | cons it rest ih =>
    by_cases h : it.id = tid <;> simp [updateFirstById, h, ih]

theorem mem_updateFirstById {it' : Item} {l : List Item} {tid : Nat}
    {f : Item → Item} (h : it' ∈ updateFirstById l tid f) :
    it' ∈ l ∨ ∃ it ∈ l, it' = f it := by
  induction l with
  | nil => simp [updateFirstById] at h
  | cons it rest ih =>
    by_cases hid : it.id = tid
    · simp only [updateFirstById, if_pos hid, List.mem_cons] at h
      rcases h with h | h
      · exact Or.inr ⟨it, by simp, h⟩
      · exact Or.inl (List.mem_cons_of_mem _ h)
    · simp only [updateFirstById, if_neg hid, List.mem_cons] at h
      rcases h with h | h
      · exact Or.inl (by simp [h])
      · rcases ih h with h' | ⟨it0, hit0, heq⟩
        · exact Or.inl (List.mem_cons_of_mem _ h')
        · exact Or.inr ⟨it0, List.mem_cons_of_mem _ hit0, heq⟩

theorem countP_used_updateFirstById {l : List Item} {tid : Nat} {u : String}
    (hall : ∀ it ∈ l, it.used = false) (hex : ∃ it ∈ l, it.id = tid) :
    (updateFirstById l tid (setUsedAssigned u)).countP (·.used) = 1 := by
  induction l with
  | nil => simp at hex
  | cons it rest ih =>
    by_cases hid : it.id = tid
    · simp only [updateFirstById, if_pos hid]
      have hz : rest.countP (fun it => it.used) = 0 :=
        List.countP_eq_zero.mpr
          (fun a ha => by simp [hall a (List.mem_cons_of_mem _ ha)])
      simp [List.countP_cons, hz, setUsedAssigned]
    · simp only [updateFirstById, if_neg hid]
      have hhd : it.used = false := hall it (by simp)
      have hex' : ∃ it0 ∈ rest, it0.id = tid := by
        rcases hex with ⟨it0, hit0, hid0⟩
        rcases List.mem_cons.mp hit0 with h | h
        · exact absurd (h ▸ hid0) hid
        · exact ⟨it0, h, hid0⟩
      have := ih (fun a ha => hall a (List.mem_cons_of_mem _ ha)) hex'
      simp [List.countP_cons, hhd, this]

theorem filter_isCandidate_eq_nil {l : List Item} {userId : String}
    (hall : ∀ it ∈ l, it.used = true ∨ it.assignedTo = some userId) :
    l.filter (isCandidate userId) = [] := by
  rw [List.filter_eq_nil_iff]
  intro it hit
  rcases hall it hit with h | h <;> simp [isCandidate, h]

/-! ## Claim theorems -/

/-- C1: on a non-empty collection in which no item passes the candidate
filter (every item is `used=true` or assigned to the requesting user),
`getItemFromCollection` resets every item (`used=false`, `assignedTo`
cleared) and then assigns exactly one item to the requesting user: the
call succeeds, the item count is unchanged, exactly one item ends
`used=true`, and every item is either the freshly assigned one
(`used=true, assignedTo=userId`) or fully reset
(`used=false`, `assignedTo` absent). -/
theorem claim_C1_reset_on_exhausted (s : Store) (cn userId : String)
    (sample : List SampleItem) (r1 r2 : Nat)
    (hne : s.items ≠ [])
    (hall : ∀ it ∈ s.items, it.used = true ∨ it.assignedTo = some userId) :
    (getItemFromCollection s cn userId sample r1 r2).1.success = true ∧
    (getItemFromCollection s cn userId sample r1 r2).2.items.length
      = s.items.length ∧
    ((getItemFromCollection s cn userId sample r1 r2).2.items.countP
      (·.used)) = 1 ∧
    ∀ it ∈ (getItemFromCollection s cn userId sample r1 r2).2.items,
      (it.used = true ∧ it.assignedTo = some userId)
        ∨ (it.used = false ∧ it.assignedTo = none) := by
  rw [getItemFromCollection_eq, seedIfEmpty_of_ne_nil hne]
  have hc : s.items.filter (isCandidate userId) = [] :=
    filter_isCandidate_eq_nil hall
  have hlen : (resetAll s).items.length = s.items.length := by simp [resetAll]
  have hpos : (resetAll s).items.length ≠ 0 := by
    rw [hlen]
    intro h
    exact hne (List.length_eq_zero.mp h)
  have hreset : ∀ it ∈ (resetAll s).items,
      it.used = false ∧ it.assignedTo = none := by
    intro it hit
    simp only [resetAll, List.mem_map] at hit
    obtain ⟨a, _, ha⟩ := hit
    subst ha
    exact ⟨rfl, rfl⟩
  simp only [acquireSelect, hc]
  rw [dif_neg (by simp)]
  rw [dif_pos hpos]
  refine ⟨rfl, ?_, ?_, ?_⟩
  · simp [updateFirstById_length, hlen]
  · exact countP_used_updateFirstById
      (fun it hit => (hreset it hit).1)
      ⟨(resetAll s).items.get ⟨r2 % (resetAll s).items.length,
          Nat.mod_lt _ (Nat.pos_of_ne_zero hpos)⟩,
        List.get_mem _ _ _, rfl⟩
  · intro it hit
    rcases mem_updateFirstById hit with h | ⟨it0, _, heq⟩
    · exact Or.inr (hreset it h)
    · subst heq
      exact Or.inl ⟨rfl, rfl⟩

/-- C1 witness: the concrete 3-item scenario — all three items
`used=true, assignedTo="alice"` — ends with a successful call, exactly
one used item, and two unused ones. -/
theorem claim_C1_witness :
    (getItemFromCollection
      { items :=
          [ { id := 1, data := .obj (.cons "message" (.str "Question 1") .nil),
              used := true, assignedTo := some "alice", createdBy := none,
              createdAt := none },
            { id := 2, data := .obj (.cons "message" (.str "Question 2") .nil),
              used := true, assignedTo := some "alice", createdBy := none,
              createdAt := none },
            { id := 3, data := .obj (.cons "message" (.str "Question 3") .nil),
              used := true, assignedTo := some "alice", createdBy := none,
              createdAt := none } ],
        nextId := 4 }
      "questions" "alice" questionSampleData 0 5).1.success = true ∧
    ((getItemFromCollection
      { items :=
          [ { id := 1, data := .obj (.cons "message" (.str "Question 1") .nil),
              used := true, assignedTo := some "alice", createdBy := none,
              createdAt := none },
            { id := 2, data := .obj (.cons "message" (.str "Question 2") .nil),
              used := true, assignedTo := some "alice", createdBy := none,
              createdAt := none },
            { id := 3, data := .obj (.cons "message" (.str "Question 3") .nil),
              used := true, assignedTo := some "alice", createdBy := none,
              createdAt := none } ],
        nextId := 4 }
      "questions" "alice" questionSampleData 0 5).2.items.countP (·.used)) = 1 := by
  have h := claim_C1_reset_on_exhausted
    { items :=
        [ { id := 1, data := .obj (.cons "message" (.str "Question 1") .nil),
            used := true, assignedTo := some "alice", createdBy := none,
            createdAt := none },
          { id := 2, data := .obj (.cons "message" (.str "Question 2") .nil),
            used := true, assignedTo := some "alice", createdBy := none,
            createdAt := none },
          { id := 3, data := .obj (.cons "message" (.str "Question 3") .nil),
            used := true, assignedTo := some "alice", createdBy := none,
            createdAt := none } ],
      nextId := 4 }
    "questions" "alice" questionSampleData 0 5 (by decide) (by decide)
  exact ⟨h.1, h.2.2.1⟩

/-- C2: when a collection has zero items at the start of an acquire
call, `getItemFromCollection` first inserts all of the supplied sample
data (every inserted item `used=false` — the repository's sample tables
carry `used: false` — and unassigned), and only then performs candidate
selection: the whole call equals the selection phase run on the seeded
store, and the item count immediately after seeding equals the sample
data length. -/
theorem claim_C2_lazy_seeding (s : Store) (cn userId : String)
    (sample : List SampleItem) (r1 r2 : Nat)
    (hempty : s.items = [])
    (hsample : ∀ e ∈ sample, e.used = false) :
    getItemFromCollection s cn userId sample r1 r2
      = ((acquireSelect (insertSampleItems s sample) cn userId r1 r2).1,
         (acquireSelect (insertSampleItems s sample) cn userId r1 r2).2.1) ∧
    (insertSampleItems s sample).items.length = sample.length ∧
    ∀ it ∈ (insertSampleItems s sample).items,
      it.used = false ∧ it.assignedTo = none ∧ it.createdBy = none
        ∧ ∃ e ∈ sample, it.data = e.data := by
  refine ⟨?_, ?_, ?_⟩
  · rw [getItemFromCollection_eq, seedIfEmpty_of_nil hempty]
  · rw [insertSampleItems_eq]
    simp [hempty, seededItemsFrom_length]
  · intro it hit
    rw [insertSampleItems_eq] at hit
    simp only [hempty, List.nil_append] at hit
    obtain ⟨h1, h2, _, _, e, he, hdata, hused⟩ := mem_seededItemsFrom sample _ hit
    exact ⟨hused ▸ hsample e he, h1, h2, ⟨e, he, hdata⟩⟩

/-- C2 witness: seeding the empty store with the three question sample
records yields exactly three items. -/
theorem claim_C2_witness :
    (insertSampleItems emptyStore questionSampleData).items.length
      = questionSampleData.length :=
  (claim_C2_lazy_seeding emptyStore "questions" "u1" questionSampleData 0 0
    rfl (by decide)).2.1

/-- C7: `deleteItemsByUser` removes exactly the items whose `createdBy`
equals the given user id — reporting `success=true` and a
`deletedCount` equal to the number of matching items — and leaves every
other item in place unchanged, so the item count decreases by exactly
the number of items created by that user. -/
theorem claim_C7_delete_by_creator (s : Store) (userId : String) :
    (deleteItemsByUser s userId).1.success = true ∧
    (deleteItemsByUser s userId).1.deletedCount
      = s.items.countP (fun it => decide (it.createdBy = some userId)) ∧
    (deleteItemsByUser s userId).2.items
      = s.items.filter (fun it => decide (it.createdBy ≠ some userId)) ∧
    (deleteItemsByUser s userId).2.items.length
      = s.items.length
        - s.items.countP (fun it => decide (it.createdBy = some userId)) ∧
    (∀ it ∈ s.items, it.createdBy ≠ some userId →
       it ∈ (deleteItemsByUser s userId).2.items) ∧
    (∀ it ∈ (deleteItemsByUser s userId).2.items,
       it ∈ s.items ∧ it.createdBy ≠ some userId) := by
  refine ⟨rfl, rfl, rfl, ?_, ?_, ?_⟩
  · show (s.items.filter fun it => decide (it.createdBy ≠ some userId)).length = _
    induction s.items with
    | nil => rfl
    | cons it rest ih =>
      have hle : rest.countP (fun it => decide (it.createdBy = some userId))
          ≤ rest.length := List.countP_le_length _
      by_cases h : it.createdBy = some userId
      · rw [List.filter_cons, List.countP_cons]
        simp only [ne_eq, decide_not] at ih ⊢
        simp [h, ih]
      · rw [List.filter_cons, List.countP_cons]
        simp only [ne_eq, decide_not] at ih ⊢
        simp [h, ih]
        omega
  · intro it hit hne
    show it ∈ s.items.filter fun it => decide (it.createdBy ≠ some userId)
    exact List.mem_filter.mpr ⟨hit, by simp [hne]⟩
  · intro it hit
    have := List.mem_filter.mp hit
    refine ⟨this.1, ?_⟩
    have h2 := this.2
    simpa using h2

/-- C7 witness: deleting `bob`'s items from a two-item collection (one
created by `bob`, one seeded) removes exactly one item. -/
theorem claim_C7_witness :
    (deleteItemsByUser
      { items :=
          [ { id := 1, data := .str "a", used := false, assignedTo := none,
              createdBy := none, createdAt := none },
            { id := 2, data := .str "b", used := true, assignedTo := some "x",
              createdBy := some "bob", createdAt := some 7 } ],
        nextId := 3 } "bob").1.deletedCount = 1 ∧
    (deleteItemsByUser
      { items :=
          [ { id := 1, data := .str "a", used := false, assignedTo := none,
              createdBy := none, createdAt := none },
            { id := 2, data := .str "b", used := true, assignedTo := some "x",
              createdBy := some "bob", createdAt := some 7 } ],
        nextId := 3 } "bob").2.items.length = 1 := by
  have h := claim_C7_delete_by_creator
    { items :=
        [ { id := 1, data := .str "a", used := false, assignedTo := none,
            createdBy := none, createdAt := none },
          { id := 2, data := .str "b", used := true, assignedTo := some "x",
            createdBy := some "bob", createdAt := some 7 } ],
      nextId := 3 } "bob"
  exact ⟨h.2.1.trans (by decide), h.2.2.2.1.trans (by decide)⟩

/-- C10: `deleteItemsByUser` never removes an item whose `createdBy` is
absent — the deletion predicate is an equality match on `createdBy` —
and every item inserted by seeding has `createdBy` absent, so seeded
sample items survive every `deleteItemsByUser` call. -/
theorem claim_C10_seeded_items_survive_delete (s : Store) (userId : String) :
    (∀ it ∈ s.items, it.createdBy = none →
       it ∈ (deleteItemsByUser s userId).2.items) ∧
    (∀ sample : List SampleItem, ∀ it ∈ (insertSampleItems s sample).items,
       it ∈ s.items ∨ it.createdBy = none) := by
  refine ⟨?_, ?_⟩
  · intro it hit hnone
    show it ∈ s.items.filter fun it => decide (it.createdBy ≠ some userId)
    refine List.mem_filter.mpr ⟨hit, by simp [hnone]⟩
  · intro sample it hit
    rw [insertSampleItems_eq] at hit
    rcases List.mem_append.mp hit with h | h
    · exact Or.inl h
    · exact Or.inr (mem_seededItemsFrom sample _ h).2.1

/-- C10 witness: a freshly seeded question collection survives a
`deleteItemsByUser` call for `"bob"` intact — its first item is still
present afterwards. -/
theorem claim_C10_witness :
    { id := 1, data := Json.obj (.cons "message" (.str "Question 1") .nil),
      used := false, assignedTo := none, createdBy := none,
      createdAt := none : Item }
      ∈ (deleteItemsByUser (insertSampleItems emptyStore questionSampleData)
          "bob").2.items :=
  (claim_C10_seeded_items_survive_delete
    (insertSampleItems emptyStore questionSampleData) "bob").1
    _ (by decide) rfl

theorem insertSampleItems_nil (s : Store) : insertSampleItems s [] = s := by
  obtain ⟨items, nid⟩ := s
  rw [insertSampleItems_eq]
  simp [seededItemsFrom]

theorem seedIfEmpty_idem (s : Store) (sample : List SampleItem) :
    seedIfEmpty (seedIfEmpty s sample) sample = seedIfEmpty s sample := by
  by_cases h : s.items = []
  · rw [seedIfEmpty_of_nil h]
    by_cases hs : sample = []
    · subst hs
      rw [insertSampleItems_nil, seedIfEmpty_of_nil h]
      exact insertSampleItems_nil s
    · apply seedIfEmpty_of_ne_nil
      rw [insertSampleItems_eq, h]
      simp only [List.nil_append]
      intro hnil
      have := seededItemsFrom_length sample s.nextId
      rw [hnil] at this
      exact hs (List.length_eq_zero.mp this.symm)
  · rw [seedIfEmpty_of_ne_nil h, seedIfEmpty_of_ne_nil h]

/-- C8: the per-collection body of `initializeCollections` seeds the
sample data if and only if the collection is currently empty; it is
idempotent, and it composes with the lazy per-request seeding of
`getItemFromCollection` in either order without double-seeding — in
particular a second invocation never changes the item count. -/
theorem claim_C8_initialize_idempotent (s : Store) (sample : List SampleItem) :
    (s.items = [] → initializeCollection s sample = insertSampleItems s sample) ∧
    (s.items ≠ [] → initializeCollection s sample = s) ∧
    initializeCollection (initializeCollection s sample) sample
      = initializeCollection s sample ∧
    seedIfEmpty (initializeCollection s sample) sample
      = initializeCollection s sample ∧
    initializeCollection (seedIfEmpty s sample) sample
      = seedIfEmpty s sample ∧
    (initializeCollection (initializeCollection s sample) sample).items.length
      = (initializeCollection s sample).items.length := by
  have heq : ∀ s' : Store, initializeCollection s' sample = seedIfEmpty s' sample :=
    fun s' => rfl
  refine ⟨?_, ?_, ?_, ?_, ?_, ?_⟩
  · intro h
    rw [heq, seedIfEmpty_of_nil h]
  · intro h
    rw [heq, seedIfEmpty_of_ne_nil h]
  · rw [heq, heq, seedIfEmpty_idem]
  · rw [heq, seedIfEmpty_idem]
  · rw [heq, seedIfEmpty_idem]
  · rw [heq, heq, seedIfEmpty_idem]

/-- C8 witness: initializing twice from the empty store leaves the item
count at the sample size (three), not six. -/
theorem claim_C8_witness :
    initializeCollection emptyStore questionSampleData
      = insertSampleItems emptyStore questionSampleData ∧
    (initializeCollection (initializeCollection emptyStore questionSampleData)
        questionSampleData).items.length
      = (initializeCollection emptyStore questionSampleData).items.length ∧
    (initializeCollection (initializeCollection emptyStore questionSampleData)
        questionSampleData).items.length = 3 := by
  have h := claim_C8_initialize_idempotent emptyStore questionSampleData
  exact ⟨h.1 rfl, h.2.2.2.2.2, by rw [h.2.2.2.2.2]; decide⟩

theorem acquireSelect_success_of_ne_nil {s : Store} {cn u : String}
    {r1 r2 : Nat} (hne : s.items ≠ []) :
    (acquireSelect s cn u r1 r2).1.success = true := by
  by_cases hc : (s.items.filter (isCandidate u)).length ≠ 0
  · simp only [acquireSelect]
    rw [dif_pos hc]
  · have hpos : (resetAll s).items.length ≠ 0 := by
      simp only [resetAll, List.length_map]
      intro h
      exact hne (List.length_eq_zero.mp h)
    simp only [acquireSelect]
    rw [dif_neg hc, dif_pos hpos]

theorem acquireSelect_of_nil {s : Store} {cn u : String} {r1 r2 : Nat}
    (h : s.items = []) :
    acquireSelect s cn u r1 r2
      = ({ success := false, data := .err ("No " ++ cn ++ " available") },
         resetAll s, none) := by
  have hememp : s.items.filter (isCandidate u) = [] := by rw [h]; rfl
  have hres : (resetAll s).items.length = 0 := by
    simp [resetAll, h]
  simp only [acquireSelect, hememp]
  rw [dif_neg (by simp)]
  rw [dif_neg (by simp [hres])]

/-- C4: `getItemFromCollection` returns `success=false` exactly when the
collection holds zero items even after the lazy-seeding and reset steps
— equivalently, when it started empty and the sample data is empty too —
and in that case the result is the structured error value
`{ error: "No <collectionName> available" }` naming the collection,
returned rather than thrown. -/
theorem claim_C4_failure_iff_empty (s : Store) (cn userId : String)
    (sample : List SampleItem) (r1 r2 : Nat) :
    ((getItemFromCollection s cn userId sample r1 r2).1.success = false
      ↔ (seedIfEmpty s sample).items = []) ∧
    ((seedIfEmpty s sample).items = [] ↔ s.items = [] ∧ sample = []) ∧
    ((getItemFromCollection s cn userId sample r1 r2).1.success = false →
      (getItemFromCollection s cn userId sample r1 r2).1.data
        = .err ("No " ++ cn ++ " available")) := by
  have hiff : (seedIfEmpty s sample).items = [] ↔ s.items = [] ∧ sample = [] := by
    constructor
    · intro h
      by_cases hs : s.items = []
      · refine ⟨hs, ?_⟩
        rw [seedIfEmpty_of_nil hs, insertSampleItems_eq, hs] at h
        simp only [List.nil_append] at h
        have := seededItemsFrom_length sample s.nextId
        rw [h] at this
        exact List.length_eq_zero.mp this.symm
      · rw [seedIfEmpty_of_ne_nil hs] at h
        exact absurd h hs
    · rintro ⟨h1, h2⟩
      subst h2
      rw [seedIfEmpty_of_nil h1, insertSampleItems_nil]
      exact h1
  refine ⟨?_, hiff, ?_⟩
  · constructor
    · intro h
      by_contra hne
      have := @acquireSelect_success_of_ne_nil (seedIfEmpty s sample)
        cn userId r1 r2 hne
      rw [getItemFromCollection_eq] at h
      rw [this] at h
      cases h
    · intro h
      rw [getItemFromCollection_eq, acquireSelect_of_nil h]
  · intro h
    have hemp : (seedIfEmpty s sample).items = [] := by
      by_contra hne
      have := @acquireSelect_success_of_ne_nil (seedIfEmpty s sample)
        cn userId r1 r2 hne
      rw [getItemFromCollection_eq] at h
      rw [this] at h
      cases h
    rw [getItemFromCollection_eq, acquireSelect_of_nil hemp]

/-- C4 witness: acquiring from an empty collection with empty sample
data fails with the structured error naming the collection. -/
theorem claim_C4_witness :
    (getItemFromCollection emptyStore "events" "alice" [] 3 4).1.success = false ∧
    (getItemFromCollection emptyStore "events" "alice" [] 3 4).1.data
      = .err "No events available" := by
  have h := claim_C4_failure_iff_empty emptyStore "events" "alice" [] 3 4
  have hfail : (getItemFromCollection emptyStore "events" "alice" [] 3 4).1.success
      = false := h.1.mpr (h.2.1.mpr ⟨rfl, rfl⟩)
  exact ⟨hfail, h.2.2 hfail⟩

/-- C9 counterexample: a freshly constructed (never connected)
`MongoDBClient` — `isConnectedFlag = false` — still returns a usable
collection handle from `getCollection` instead of failing with a
`NotConnected` error. -/
theorem claim_C9_counterexample :
    MongoDBClient.init.isConnectedFlag = false ∧
    MongoDBClient.init.getCollection "events"
      = Except.ok { name := "events" } :=
  ⟨rfl, rfl⟩

/-- C9 (amended): only the SQLite variant guards `getCollection`: before
`connect()` succeeds (`db` still null) it fails with the
`'Database not connected'` error; the MongoDB variant performs no
connectivity check and returns a collection handle in every state. -/
theorem claim_C9_notconnected_sqlite_only :
    (∀ (c : SQLiteClient) (name : String), c.db = none →
       c.getCollection name = Except.error "Database not connected") ∧
    (∀ (c : SQLiteClient) (name : String), c.isConnected = false →
       c.getCollection name = Except.error "Database not connected") ∧
    (∀ (c : MongoDBClient) (name : String),
       c.getCollection name = Except.ok { name := name }) := by
  refine ⟨?_, ?_, ?_⟩
  · intro c name h
    simp [SQLiteClient.getCollection, h]
  · intro c name h
    cases hdb : c.db with
    | none => simp [SQLiteClient.getCollection, hdb]
    | some d =>
      rw [SQLiteClient.isConnected, hdb] at h
      simp at h
  · intro c name
    rfl

/-- C9 witness: a freshly constructed `SQLiteClient` (with `db = null`)
fails `getCollection` with the `'Database not connected'` error. -/
theorem claim_C9_witness :
    SQLiteClient.init.getCollection "events"
      = Except.error "Database not connected" :=
  claim_C9_notconnected_sqlite_only.1 SQLiteClient.init "events" rfl

theorem updateFirstById_eq_set {l : List Item} {f : Item → Item} :
    ∀ (i : Nat) (hi : i < l.length), (l.map (·.id)).Nodup →
      updateFirstById l (l.get ⟨i, hi⟩).id f = l.set i (f (l.get ⟨i, hi⟩)) := by
  induction l with
  | nil => intro i hi _; simp at hi
  | cons it rest ih =>
    intro i hi hnd
    cases i with
    | zero =>
      show updateFirstById (it :: rest) it.id f = _
      simp [updateFirstById]
    | succ i =>
      have hi' : i < rest.length := by simpa using hi
      have hget : ((it :: rest).get ⟨i + 1, hi⟩) = rest.get ⟨i, hi'⟩ := rfl
      rw [hget]
      have hne : it.id ≠ (rest.get ⟨i, hi'⟩).id := by
        simp only [List.map_cons, List.nodup_cons] at hnd
        intro heq
        apply hnd.1
        rw [heq]
        exact List.mem_map_of_mem (fun x => x.id) (List.get_mem rest i hi')
      show updateFirstById (it :: rest) (rest.get ⟨i, hi'⟩).id f = _
      simp only [updateFirstById, if_neg hne]
      rw [ih i hi' (by simp only [List.map_cons, List.nodup_cons] at hnd; exact hnd.2)]
      rfl

/-- C3: when the collection contains at least one candidate — an item
with `used=false` whose `assignedTo` differs from (or is absent for) the
requesting user — and item ids are distinct (as both storage backends
guarantee), `getItemFromCollection` succeeds, returns the payload of one
such candidate, and mutates exactly that one item (`used=true`,
`assignedTo=userId` via `List.set` at its position), leaving every other
item unchanged. -/
theorem claim_C3_assigns_single_candidate (s : Store) (cn userId : String)
    (sample : List SampleItem) (r1 r2 : Nat)
    (hnd : (s.items.map (·.id)).Nodup)
    (hcand : ∃ it ∈ s.items, it.used = false ∧ it.assignedTo ≠ some userId) :
    ∃ i : Fin s.items.length,
      (s.items.get i).used = false ∧
      (s.items.get i).assignedTo ≠ some userId ∧
      (getItemFromCollection s cn userId sample r1 r2).1.success = true ∧
      (getItemFromCollection s cn userId sample r1 r2).1.data
        = .payload (s.items.get i).data ∧
      (getItemFromCollection s cn userId sample r1 r2).2.items
        = s.items.set i (setUsedAssigned userId (s.items.get i)) := by
  obtain ⟨w, hw, hwu, hwa⟩ := hcand
  have hne : s.items ≠ [] := by
    intro h
    rw [h] at hw
    simp at hw
  have hwcand : isCandidate userId w = true := by
    simp [isCandidate, hwu, hwa]
  have hlenpos : (s.items.filter (isCandidate userId)).length ≠ 0 := by
    intro h
    have : w ∈ s.items.filter (isCandidate userId) :=
      List.mem_filter.mpr ⟨hw, hwcand⟩
    rw [List.length_eq_zero.mp h] at this
    simp at this
  have hchosen_mem :
      (s.items.filter (isCandidate userId)).get
        ⟨r1 % (s.items.filter (isCandidate userId)).length,
         Nat.mod_lt _ (Nat.pos_of_ne_zero hlenpos)⟩
        ∈ s.items.filter (isCandidate userId) := List.get_mem _ _ _
  have hchosen_in : ((s.items.filter (isCandidate userId)).get
        ⟨r1 % (s.items.filter (isCandidate userId)).length,
         Nat.mod_lt _ (Nat.pos_of_ne_zero hlenpos)⟩) ∈ s.items :=
    (List.mem_filter.mp hchosen_mem).1
  have hchosen_cand := (List.mem_filter.mp hchosen_mem).2
  obtain ⟨i, hgi⟩ := List.mem_iff_get.mp hchosen_in
  refine ⟨i, ?_, ?_, ?_, ?_, ?_⟩
  · rw [hgi]
    have := hchosen_cand
    simp [isCandidate] at this
    exact this.1
  · rw [hgi]
    have := hchosen_cand
    simp [isCandidate] at this
    exact this.2
  · rw [getItemFromCollection_eq, seedIfEmpty_of_ne_nil hne]
    simp only [acquireSelect]
    rw [dif_pos hlenpos]
  · rw [getItemFromCollection_eq, seedIfEmpty_of_ne_nil hne]
    simp only [acquireSelect]
    rw [dif_pos hlenpos]
    rw [hgi]
  · rw [getItemFromCollection_eq, seedIfEmpty_of_ne_nil hne]
    simp only [acquireSelect]
    rw [dif_pos hlenpos]
    show updateFirstById s.items _ (setUsedAssigned userId) = _
    rw [← hgi]
    exact updateFirstById_eq_set i.1 i.2 hnd

/-- C3 witness: a two-item collection with one candidate for `"bob"`;
the call succeeds and mutates exactly the candidate item. -/
theorem claim_C3_witness :
    (getItemFromCollection
      { items :=
          [ { id := 1, data := .str "a", used := true, assignedTo := some "bob",
              createdBy := none, createdAt := none },
            { id := 2, data := .str "b", used := false, assignedTo := none,
              createdBy := none, createdAt := none } ],
        nextId := 3 } "events" "bob" [] 0 0).1.success = true := by
  obtain ⟨i, _, _, hs, _, _⟩ := claim_C3_assigns_single_candidate
    { items :=
        [ { id := 1, data := .str "a", used := true, assignedTo := some "bob",
            createdBy := none, createdAt := none },
          { id := 2, data := .str "b", used := false, assignedTo := none,
            createdBy := none, createdAt := none } ],
      nextId := 3 } "events" "bob" [] 0 0 (by decide)
    ⟨{ id := 2, data := .str "b", used := false, assignedTo := none,
        createdBy := none, createdAt := none }, by decide, rfl, by decide⟩
  exact hs

/-! ### Lemmas for the round-trip claim -/

theorem createdRowsFrom_length (ps : List Json) (u : String) (now : Nat) :
    ∀ nid, (createdRowsFrom u now nid ps).length = ps.length := by
  induction ps with
  | nil => intro nid; rfl
  | cons p ps ih => intro nid; simp [createdRowsFrom, ih]

theorem seededRowsFrom_length (sample : List SampleItem) (now : Nat) :
    ∀ nid, (seededRowsFrom now nid sample).length = sample.length := by
  induction sample with
  | nil => intro nid; rfl
  | cons e es ih => intro nid; simp [seededRowsFrom, ih]

theorem mem_createdRowsFrom {r : SqliteRow} (ps : List Json) (u : String)
    (now : Nat) : ∀ nid, r ∈ createdRowsFrom u now nid ps →
      r.used = false ∧ r.assignedTo = none := by
  induction ps with
  | nil => intro nid h; simp [createdRowsFrom] at h
  | cons p ps ih =>
    intro nid h
    simp only [createdRowsFrom, List.mem_cons] at h
    rcases h with h | h
    · subst h; exact ⟨rfl, rfl⟩
    · exact ih (nid + 1) h

theorem mem_seededRowsFrom {r : SqliteRow} (sample : List SampleItem)
    (now : Nat) : ∀ nid, r ∈ seededRowsFrom now nid sample →
      r.used = false ∧ r.assignedTo = none := by
  induction sample with
  | nil => intro nid h; simp [seededRowsFrom] at h
  | cons e es ih =>
    intro nid h
    simp only [seededRowsFrom, List.mem_cons] at h
    rcases h with h | h
    · subst h; exact ⟨rfl, rfl⟩
    · exact ih (nid + 1) h

theorem createdItemsFrom_getElem (ps : List Json) (u : String) (now : Nat) :
    ∀ (nid i : Nat), (createdItemsFrom u now nid ps)[i]?
      = (ps[i]?).map (fun p =>
          { id := nid + i, data := p, used := false, assignedTo := none,
            createdBy := some u, createdAt := some now }) := by
  induction ps with
  | nil => intro nid i; simp [createdItemsFrom]
  | cons p ps ih =>
    intro nid i
    cases i with
    | zero => simp [createdItemsFrom]
    | succ i =>
      have hunf : createdItemsFrom u now nid (p :: ps)
          = { id := nid, data := p, used := false, assignedTo := none,
              createdBy := some u, createdAt := some now }
            :: createdItemsFrom u now (nid + 1) ps := by
        simp [createdItemsFrom]
      rw [hunf, List.getElem?_cons_succ, List.getElem?_cons_succ,
        ih (nid + 1) i, show (nid + 1) + i = nid + (i + 1) by omega]

theorem createdRowsFrom_getElem (ps : List Json) (u : String) (now : Nat) :
    ∀ (nid i : Nat), (createdRowsFrom u now nid ps)[i]?
      = (ps[i]?).map (fun p =>
          { id := nid + i, data := Json.stringify p, used := false,
            assignedTo := none, createdBy := some u,
            createdAt := some now }) := by
  induction ps with
  | nil => intro nid i; simp [createdRowsFrom]
  | cons p ps ih =>
    intro nid i
    cases i with
    | zero => simp [createdRowsFrom]
    | succ i =>
      have hunf : createdRowsFrom u now nid (p :: ps)
          = { id := nid, data := Json.stringify p, used := false,
              assignedTo := none, createdBy := some u, createdAt := some now }
            :: createdRowsFrom u now (nid + 1) ps := by
        simp [createdRowsFrom]
      rw [hunf, List.getElem?_cons_succ, List.getElem?_cons_succ,
        ih (nid + 1) i, show (nid + 1) + i = nid + (i + 1) by omega]

theorem seededRowsFrom_getElem (sample : List SampleItem) (now : Nat) :
    ∀ (nid i : Nat), (seededRowsFrom now nid sample)[i]?
      = (sample[i]?).map (fun e =>
          { id := nid + i, data := Json.stringify e.data, used := false,
            assignedTo := none, createdBy := none, createdAt := some now }) := by
  induction sample with
  | nil => intro nid i; simp [seededRowsFrom]
  | cons e es ih =>
    intro nid i
    cases i with
    | zero => simp [seededRowsFrom]
    | succ i =>
      have hunf : seededRowsFrom now nid (e :: es)
          = { id := nid, data := Json.stringify e.data, used := false,
              assignedTo := none, createdBy := none, createdAt := some now }
            :: seededRowsFrom now (nid + 1) es := by
        simp [seededRowsFrom]
      rw [hunf, List.getElem?_cons_succ, List.getElem?_cons_succ,
        ih (nid + 1) i, show (nid + 1) + i = nid + (i + 1) by omega]

theorem seededItemsFrom_getElem (sample : List SampleItem) :
    ∀ (nid i : Nat), (seededItemsFrom nid sample)[i]?
      = (sample[i]?).map (fun e =>
          { id := nid + i, data := e.data, used := e.used, assignedTo := none,
            createdBy := none, createdAt := none }) := by
  induction sample with
  | nil => intro nid i; simp [seededItemsFrom]
  | cons e es ih =>
    intro nid i
    cases i with
    | zero => simp [seededItemsFrom]
    | succ i =>
      have hunf : seededItemsFrom nid (e :: es)
          = { id := nid, data := e.data, used := e.used, assignedTo := none,
              createdBy := none, createdAt := none }
            :: seededItemsFrom (nid + 1) es := by
        simp [seededItemsFrom]
      rw [hunf, List.getElem?_cons_succ, List.getElem?_cons_succ,
        ih (nid + 1) i, show (nid + 1) + i = nid + (i + 1) by omega]

theorem acquireSelect_all_cands {s : Store} {cn u : String} {r1 r2 : Nat}
    (hne : s.items ≠ [])
    (hall : ∀ it ∈ s.items, isCandidate u it = true) :
    (acquireSelect s cn u r1 r2).1
      = { success := true,
          data := .payload ((s.items.get ⟨r1 % s.items.length,
            Nat.mod_lt _ (List.length_pos.mpr hne)⟩).data) } := by
  have hfilter : s.items.filter (isCandidate u) = s.items :=
    List.filter_eq_self.mpr hall
  have hlen : s.items.length ≠ 0 := fun h => hne (List.length_eq_zero.mp h)
  have hlenf : (s.items.filter (isCandidate u)).length ≠ 0 := by
    rw [hfilter]; exact hlen
  have hitem : ∀ (pf : r1 % (s.items.filter (isCandidate u)).length
        < (s.items.filter (isCandidate u)).length)
      (pf' : r1 % s.items.length < s.items.length),
      (s.items.filter (isCandidate u)).get
          ⟨r1 % (s.items.filter (isCandidate u)).length, pf⟩
        = s.items.get ⟨r1 % s.items.length, pf'⟩ := by
    intro pf pf'
    have h1 : some ((s.items.filter (isCandidate u)).get
          ⟨r1 % (s.items.filter (isCandidate u)).length, pf⟩)
        = (s.items.filter (isCandidate u))[r1
            % (s.items.filter (isCandidate u)).length]? := by
      rw [List.get_eq_getElem, List.getElem?_eq_getElem pf]
    have h2 : some (s.items.get ⟨r1 % s.items.length, pf'⟩)
        = s.items[r1 % s.items.length]? := by
      rw [List.get_eq_getElem, List.getElem?_eq_getElem pf']
    have h3 : (s.items.filter (isCandidate u))[r1
          % (s.items.filter (isCandidate u)).length]?
        = s.items[r1 % s.items.length]? := by rw [hfilter]
    exact Option.some.inj (h1.trans (h3.trans h2.symm))
  simp only [acquireSelect]
  rw [dif_pos hlenf]
  dsimp only
  rw [hitem _ _]

theorem sqliteSelect_all_cands {t : SqliteTable} {cn u : String} {r1 r2 : Nat}
    (hne : t.rows ≠ [])
    (hall : ∀ r ∈ t.rows, sqliteCandidate u r = true) :
    (sqliteSelect t cn u r1 r2).1
      = { success := true,
          data := .payload (Json.parse ((t.rows.get ⟨r1 % t.rows.length,
            Nat.mod_lt _ (List.length_pos.mpr hne)⟩).data)) } := by
  have hfilter : t.rows.filter (sqliteCandidate u) = t.rows :=
    List.filter_eq_self.mpr hall
  have hlen : t.rows.length ≠ 0 := fun h => hne (List.length_eq_zero.mp h)
  have hlenf : (t.rows.filter (sqliteCandidate u)).length ≠ 0 := by
    rw [hfilter]; exact hlen
  have hitem : ∀ (pf : r1 % (t.rows.filter (sqliteCandidate u)).length
        < (t.rows.filter (sqliteCandidate u)).length)
      (pf' : r1 % t.rows.length < t.rows.length),
      (t.rows.filter (sqliteCandidate u)).get
          ⟨r1 % (t.rows.filter (sqliteCandidate u)).length, pf⟩
        = t.rows.get ⟨r1 % t.rows.length, pf'⟩ := by
    intro pf pf'
    have h1 : some ((t.rows.filter (sqliteCandidate u)).get
          ⟨r1 % (t.rows.filter (sqliteCandidate u)).length, pf⟩)
        = (t.rows.filter (sqliteCandidate u))[r1
            % (t.rows.filter (sqliteCandidate u)).length]? := by
      rw [List.get_eq_getElem, List.getElem?_eq_getElem pf]
    have h2 : some (t.rows.get ⟨r1 % t.rows.length, pf'⟩)
        = t.rows[r1 % t.rows.length]? := by
      rw [List.get_eq_getElem, List.getElem?_eq_getElem pf']
    have h3 : (t.rows.filter (sqliteCandidate u))[r1
          % (t.rows.filter (sqliteCandidate u)).length]?
        = t.rows[r1 % t.rows.length]? := by rw [hfilter]
    exact Option.some.inj (h1.trans (h3.trans h2.symm))
  simp only [sqliteSelect]
  rw [dif_pos hlenf]
  dsimp only
  rw [hitem _ _]

theorem get_eq_of_getElem?_eq {α : Type} {l : List α} {i : Nat}
    {pf : i < l.length} {x : α} (h : l[i]? = some x) : l.get ⟨i, pf⟩ = x := by
  have h2 := List.getElem?_eq_getElem pf
  rw [h2] at h
  rw [List.get_eq_getElem]
  exact Option.some.inj h

theorem roundtrip_sqlite_create (ps : List Json) (creator acquirer cn : String)
    (sample : List SampleItem) (now now2 r1 r2 : Nat) (hne : ps ≠ []) :
    (sqliteGetItem (sqliteCreateItems emptySqliteTable creator ps now).2 cn
        acquirer sample now2 r1 r2).1
      = { success := true,
          data := .payload (some (ps.get ⟨r1 % ps.length,
            Nat.mod_lt _ (List.length_pos.mpr hne)⟩)) } := by
  have hps0 : 0 < ps.length := List.length_pos.mpr hne
  have htab : (sqliteCreateItems emptySqliteTable creator ps now).2
      = { rows := createdRowsFrom creator now 1 ps,
          nextId := 1 + ps.length } := by
    rw [sqliteCreateItems_eq]
    simp [emptySqliteTable]
  rw [htab]
  have hrlen : (createdRowsFrom creator now 1 ps).length = ps.length :=
    createdRowsFrom_length ps creator now 1
  have hrne : createdRowsFrom creator now 1 ps ≠ [] := by
    intro h
    rw [h] at hrlen
    simp at hrlen
    omega
  have hstep : sqliteGetItem
      { rows := createdRowsFrom creator now 1 ps, nextId := 1 + ps.length }
      cn acquirer sample now2 r1 r2
      = sqliteSelect
          { rows := createdRowsFrom creator now 1 ps, nextId := 1 + ps.length }
          cn acquirer r1 r2 := by
    simp only [sqliteGetItem]
    rw [if_neg (show ¬(createdRowsFrom creator now 1 ps).length = 0 by
      rw [hrlen]; omega)]
  rw [hstep]
  rw [@sqliteSelect_all_cands
      { rows := createdRowsFrom creator now 1 ps, nextId := 1 + ps.length }
    cn acquirer r1 r2 hrne
    (fun r hr => by
      obtain ⟨h1, h2⟩ := mem_createdRowsFrom ps creator now 1 hr
      simp [sqliteCandidate, h1, h2])]
  have hidx : r1 % (createdRowsFrom creator now 1 ps).length
      = r1 % ps.length := by rw [hrlen]
  have hrow : (createdRowsFrom creator now 1 ps).get
      ⟨r1 % (createdRowsFrom creator now 1 ps).length,
        Nat.mod_lt _ (List.length_pos.mpr hrne)⟩
      = { id := 1 + r1 % ps.length,
          data := Json.stringify (ps.get ⟨r1 % ps.length, Nat.mod_lt _ hps0⟩),
          used := false, assignedTo := none, createdBy := some creator,
          createdAt := some now } := by
    apply get_eq_of_getElem?_eq
    rw [hidx, createdRowsFrom_getElem ps creator now 1 (r1 % ps.length),
      List.getElem?_eq_getElem (Nat.mod_lt r1 hps0)]
    rw [List.get_eq_getElem]
    rfl
  rw [hrow]
  have hdata :
      ({ id := 1 + r1 % ps.length,
         data := Json.stringify (ps.get ⟨r1 % ps.length, Nat.mod_lt _ hps0⟩),
         used := false, assignedTo := none, createdBy := some creator,
         createdAt := some now } : SqliteRow).data
        = Json.stringify (ps.get ⟨r1 % ps.length, Nat.mod_lt _ hps0⟩) := rfl
  rw [hdata, Json.parse_stringify]

theorem roundtrip_mongo_create (ps : List Json) (creator acquirer cn : String)
    (sample : List SampleItem) (now r1 r2 : Nat) (hne : ps ≠ []) :
    (getItemFromCollection (createItems emptyStore creator ps now).2 cn
        acquirer sample r1 r2).1
      = { success := true,
          data := .payload (ps.get ⟨r1 % ps.length,
            Nat.mod_lt _ (List.length_pos.mpr hne)⟩) } := by
  have hps0 : 0 < ps.length := List.length_pos.mpr hne
  have htab : (createItems emptyStore creator ps now).2
      = { items := createdItemsFrom creator now 1 ps,
          nextId := 1 + ps.length } := by
    show (insertCreated emptyStore creator ps now).2 = _
    rw [insertCreated_eq]
    simp [emptyStore]
  rw [htab]
  have hrlen : (createdItemsFrom creator now 1 ps).length = ps.length :=
    createdItemsFrom_length ps creator now 1
  have hrne : createdItemsFrom creator now 1 ps ≠ [] := by
    intro h
    rw [h] at hrlen
    simp at hrlen
    omega
  rw [getItemFromCollection_eq,
    @seedIfEmpty_of_ne_nil
      { items := createdItemsFrom creator now 1 ps, nextId := 1 + ps.length }
      hrne sample]
  rw [@acquireSelect_all_cands
      { items := createdItemsFrom creator now 1 ps, nextId := 1 + ps.length }
    cn acquirer r1 r2 hrne
    (fun it hit => by
      obtain ⟨h1, h2, _, _, _, _⟩ := mem_createdItemsFrom ps creator now 1 hit
      simp [isCandidate, h1, h2])]
  have hidx : r1 % (createdItemsFrom creator now 1 ps).length
      = r1 % ps.length := by rw [hrlen]
  have hrow : (createdItemsFrom creator now 1 ps).get
      ⟨r1 % (createdItemsFrom creator now 1 ps).length,
        Nat.mod_lt _ (List.length_pos.mpr hrne)⟩
      = { id := 1 + r1 % ps.length,
          data := ps.get ⟨r1 % ps.length, Nat.mod_lt _ hps0⟩,
          used := false, assignedTo := none, createdBy := some creator,
          createdAt := some now } := by
    apply get_eq_of_getElem?_eq
    rw [hidx, createdItemsFrom_getElem ps creator now 1 (r1 % ps.length),
      List.getElem?_eq_getElem (Nat.mod_lt r1 hps0)]
    rw [List.get_eq_getElem]
    rfl
  rw [hrow]

theorem roundtrip_sqlite_seed (seed : List SampleItem) (acquirer cn : String)
    (now r1 r2 : Nat) (hs : seed ≠ []) :
    (sqliteGetItem emptySqliteTable cn acquirer seed now r1 r2).1
      = { success := true,
          data := .payload (some ((seed.get ⟨r1 % seed.length,
            Nat.mod_lt _ (List.length_pos.mpr hs)⟩).data)) } := by
  have hs0 : 0 < seed.length := List.length_pos.mpr hs
  have hseed : sqliteSeed now emptySqliteTable seed
      = { rows := seededRowsFrom now 1 seed, nextId := 1 + seed.length } := by
    rw [sqliteSeed_eq]
    simp [emptySqliteTable]
  have hstep : sqliteGetItem emptySqliteTable cn acquirer seed now r1 r2
      = sqliteSelect
          { rows := seededRowsFrom now 1 seed, nextId := 1 + seed.length }
          cn acquirer r1 r2 := by
    simp only [sqliteGetItem]
    rw [if_pos (show emptySqliteTable.rows.length = 0 from rfl), hseed]
  rw [hstep]
  have hrlen : (seededRowsFrom now 1 seed).length = seed.length :=
    seededRowsFrom_length seed now 1
  have hrne : seededRowsFrom now 1 seed ≠ [] := by
    intro h
    rw [h] at hrlen
    simp at hrlen
    omega
  rw [@sqliteSelect_all_cands
      { rows := seededRowsFrom now 1 seed, nextId := 1 + seed.length }
    cn acquirer r1 r2 hrne
    (fun r hr => by
      obtain ⟨h1, h2⟩ := mem_seededRowsFrom seed now 1 hr
      simp [sqliteCandidate, h1, h2])]
  have hidx : r1 % (seededRowsFrom now 1 seed).length = r1 % seed.length := by
    rw [hrlen]
  have hrow : (seededRowsFrom now 1 seed).get
      ⟨r1 % (seededRowsFrom now 1 seed).length,
        Nat.mod_lt _ (List.length_pos.mpr hrne)⟩
      = { id := 1 + r1 % seed.length,
          data := Json.stringify
            ((seed.get ⟨r1 % seed.length, Nat.mod_lt _ hs0⟩).data),
          used := false, assignedTo := none, createdBy := none,
          createdAt := some now } := by
    apply get_eq_of_getElem?_eq
    rw [hidx, seededRowsFrom_getElem seed now 1 (r1 % seed.length),
      List.getElem?_eq_getElem (Nat.mod_lt r1 hs0)]
    rw [List.get_eq_getElem]
    rfl
  rw [hrow]
  have hdata :
      ({ id := 1 + r1 % seed.length,
         data := Json.stringify
           ((seed.get ⟨r1 % seed.length, Nat.mod_lt _ hs0⟩).data),
         used := false, assignedTo := none, createdBy := none,
         createdAt := some now } : SqliteRow).data
        = Json.stringify ((seed.get ⟨r1 % seed.length,
            Nat.mod_lt _ hs0⟩).data) := rfl
  rw [hdata, Json.parse_stringify]

theorem roundtrip_mongo_seed (seed : List SampleItem) (acquirer cn : String)
    (r1 r2 : Nat) (hs : seed ≠ []) (hu : ∀ e ∈ seed, e.used = false) :
    (getItemFromCollection emptyStore cn acquirer seed r1 r2).1
      = { success := true,
          data := .payload ((seed.get ⟨r1 % seed.length,
            Nat.mod_lt _ (List.length_pos.mpr hs)⟩).data) } := by
  have hs0 : 0 < seed.length := List.length_pos.mpr hs
  have hseed : insertSampleItems emptyStore seed
      = { items := seededItemsFrom 1 seed, nextId := 1 + seed.length } := by
    rw [insertSampleItems_eq]
    simp [emptyStore]
  rw [getItemFromCollection_eq, seedIfEmpty_of_nil rfl, hseed]
  have hrlen : (seededItemsFrom 1 seed).length = seed.length :=
    seededItemsFrom_length seed 1
  have hrne : seededItemsFrom 1 seed ≠ [] := by
    intro h
    rw [h] at hrlen
    simp at hrlen
    omega
  rw [@acquireSelect_all_cands
      { items := seededItemsFrom 1 seed, nextId := 1 + seed.length }
    cn acquirer r1 r2 hrne
    (fun it hit => by
      obtain ⟨h1, _, _, _, e, he, hdata, hused⟩ :=
        mem_seededItemsFrom seed 1 hit
      have : it.used = false := hused ▸ hu e he
      simp [isCandidate, h1, this])]
  have hidx : r1 % (seededItemsFrom 1 seed).length = r1 % seed.length := by
    rw [hrlen]
  have hrow : (seededItemsFrom 1 seed).get
      ⟨r1 % (seededItemsFrom 1 seed).length,
        Nat.mod_lt _ (List.length_pos.mpr hrne)⟩
      = { id := 1 + r1 % seed.length,
          data := (seed.get ⟨r1 % seed.length, Nat.mod_lt _ hs0⟩).data,
          used := (seed.get ⟨r1 % seed.length, Nat.mod_lt _ hs0⟩).used,
          assignedTo := none, createdBy := none, createdAt := none } := by
    apply get_eq_of_getElem?_eq
    rw [hidx, seededItemsFrom_getElem seed 1 (r1 % seed.length),
      List.getElem?_eq_getElem (Nat.mod_lt r1 hs0)]
    rw [List.get_eq_getElem]
    rfl
  rw [hrow]

/-- C6: the payload stored for an item deep-equals the payload an
acquire call returns when it selects that item. For payloads stored
through `createItems` into an empty store and for seeded sample
payloads, in both storage variants, the acquire call returns exactly the
payload at the selected index; in the relational (SQLite) variant the
stored column is `JSON.stringify(payload)` and the returned value is
`JSON.parse` of it — a serialise-then-parse round trip. -/
theorem claim_C6_payload_roundtrip (ps : List Json)
    (creator acquirer cn : String) (sample : List SampleItem)
    (now now2 r1 r2 : Nat) (hne : ps ≠ []) :
    (sqliteGetItem (sqliteCreateItems emptySqliteTable creator ps now).2 cn
        acquirer sample now2 r1 r2).1
      = { success := true,
          data := .payload (some (ps.get ⟨r1 % ps.length,
            Nat.mod_lt _ (List.length_pos.mpr hne)⟩)) } ∧
    (getItemFromCollection (createItems emptyStore creator ps now).2 cn
        acquirer sample r1 r2).1
      = { success := true,
          data := .payload (ps.get ⟨r1 % ps.length,
            Nat.mod_lt _ (List.length_pos.mpr hne)⟩) } ∧
    (∀ (seed : List SampleItem) (hs : seed ≠ []),
      (sqliteGetItem emptySqliteTable cn acquirer seed now r1 r2).1
        = { success := true,
            data := .payload (some ((seed.get ⟨r1 % seed.length,
              Nat.mod_lt _ (List.length_pos.mpr hs)⟩).data)) }) ∧
    (∀ (seed : List SampleItem) (hs : seed ≠ []),
      (∀ e ∈ seed, e.used = false) →
      (getItemFromCollection emptyStore cn acquirer seed r1 r2).1
        = { success := true,
            data := .payload ((seed.get ⟨r1 % seed.length,
              Nat.mod_lt _ (List.length_pos.mpr hs)⟩).data) }) :=
  ⟨roundtrip_sqlite_create ps creator acquirer cn sample now now2 r1 r2 hne,
   roundtrip_mongo_create ps creator acquirer cn sample now r1 r2 hne,
   fun seed hs => roundtrip_sqlite_seed seed acquirer cn now r1 r2 hs,
   fun seed hs hu => roundtrip_mongo_seed seed acquirer cn r1 r2 hs hu⟩

/-- C6 witness: a payload containing an escaped quote and a negative
amount, stored by `createItems` into the SQLite table, is returned
verbatim by the acquire call that selects it. -/
theorem claim_C6_witness :
    (sqliteGetItem
      (sqliteCreateItems emptySqliteTable "bob"
        [ Json.obj (.cons "message" (.str "say \"hi\"")
            (.cons "amount" (.num (-1200)) .nil)),
          Json.obj (.cons "message" (.str "plain") .nil) ] 9).2
      "events" "alice" [] 9 1 0).1
      = { success := true,
          data := .payload (some (Json.obj (.cons "message" (.str "plain")
            .nil))) } := by
  have h := (claim_C6_payload_roundtrip
    [ Json.obj (.cons "message" (.str "say \"hi\"")
        (.cons "amount" (.num (-1200)) .nil)),
      Json.obj (.cons "message" (.str "plain") .nil) ]
    "bob" "alice" "events" [] 9 9 1 0 (by decide)).1
  rw [h]
  decide

/-! ### Reachable-state invariants (claim C5) -/

theorem mem_updateFirstById' {it' : Item} {l : List Item} {tid : Nat}
    {f : Item → Item} (h : it' ∈ updateFirstById l tid f) :
    it' ∈ l ∨ ∃ it ∈ l, it.id = tid ∧ it' = f it := by
  induction l with
  | nil => simp [updateFirstById] at h
  | cons it rest ih =>
    by_cases hid : it.id = tid
    · simp only [updateFirstById, if_pos hid, List.mem_cons] at h
      rcases h with h | h
      · exact Or.inr ⟨it, by simp, hid, h⟩
      · exact Or.inl (List.mem_cons_of_mem _ h)
    · simp only [updateFirstById, if_neg hid, List.mem_cons] at h
      rcases h with h | h
      · exact Or.inl (by simp [h])
      · rcases ih h with h' | ⟨it0, hit0, hid0, heq⟩
        · exact Or.inl (List.mem_cons_of_mem _ h')
        · exact Or.inr ⟨it0, List.mem_cons_of_mem _ hit0, hid0, heq⟩

theorem map_id_updateFirstById {l : List Item} {tid : Nat} {f : Item → Item}
    (hf : ∀ it, (f it).id = it.id) :
    (updateFirstById l tid f).map (·.id) = l.map (·.id) := by
  induction l with
  | nil => rfl
  | cons it rest ih =>
    by_cases hid : it.id = tid
    · simp [updateFirstById, hid, hf]
    · simp [updateFirstById, hid, ih]

theorem wf_update {s : Store} (hwf : StoreWF s) (tid : Nat) {f : Item → Item}
    (hf : ∀ it, (f it).id = it.id) :
    StoreWF { s with items := updateFirstById s.items tid f } := by
  refine ⟨?_, ?_⟩
  · show ((updateFirstById s.items tid f).map (·.id)).Nodup
    rw [map_id_updateFirstById hf]
    exact hwf.1
  · intro it hit
    rcases mem_updateFirstById hit with h | ⟨it0, hit0, heq⟩
    · exact hwf.2 it h
    · subst heq
      rw [hf it0]
      exact hwf.2 it0 hit0

theorem wf_resetAll {s : Store} (hwf : StoreWF s) : StoreWF (resetAll s) := by
  refine ⟨?_, ?_⟩
  · show ((s.items.map resetItem).map (·.id)).Nodup
    rw [List.map_map]
    exact hwf.1
  · intro it hit
    simp only [resetAll, List.mem_map] at hit
    obtain ⟨a, ha, rfl⟩ := hit
    exact hwf.2 a ha

theorem inv_resetAll {s : Store} {g : Ghost} :
    ∀ it ∈ (resetAll s).items, ∀ v, it.assignedTo = some v → g it.id = some v := by
  intro it hit v hv
  simp only [resetAll, List.mem_map] at hit
  obtain ⟨a, _, rfl⟩ := hit
  simp [resetItem] at hv

theorem wf_insertSampleItems {s : Store} (hwf : StoreWF s)
    (sample : List SampleItem) : StoreWF (insertSampleItems s sample) := by
  rw [insertSampleItems_eq]
  refine ⟨?_, ?_⟩
  · show ((s.items ++ seededItemsFrom s.nextId sample).map (·.id)).Nodup
    rw [List.map_append, seededItemsFrom_map_id]
    rw [List.nodup_append]
    refine ⟨hwf.1, idsFrom_nodup _ _, ?_⟩
    intro x hx hx2
    obtain ⟨a, ha, rfl⟩ := List.mem_map.mp hx
    have h1 := hwf.2 a ha
    have h2 := mem_idsFrom sample.length s.nextId hx2
    omega
  · intro it hit
    rcases List.mem_append.mp hit with h | h
    · have := hwf.2 it h
      show it.id < s.nextId + sample.length
      omega
    · have := mem_seededItemsFrom sample s.nextId h
      show it.id < s.nextId + sample.length
      omega

theorem inv_insertSampleItems {s : Store} {g : Ghost}
    (hinv : ∀ it ∈ s.items, ∀ v, it.assignedTo = some v → g it.id = some v)
    (sample : List SampleItem) :
    ∀ it ∈ (insertSampleItems s sample).items, ∀ v,
      it.assignedTo = some v → g it.id = some v := by
  rw [insertSampleItems_eq]
  intro it hit v hv
  rcases List.mem_append.mp hit with h | h
  · exact hinv it h v hv
  · have := (mem_seededItemsFrom sample s.nextId h).1
    rw [this] at hv
    cases hv

theorem wf_insertCreated {s : Store} (hwf : StoreWF s) (u : String)
    (ps : List Json) (now : Nat) : StoreWF (insertCreated s u ps now).2 := by
  rw [insertCreated_eq]
  refine ⟨?_, ?_⟩
  · show ((s.items ++ createdItemsFrom u now s.nextId ps).map (·.id)).Nodup
    rw [List.map_append, createdItemsFrom_map_id]
    rw [List.nodup_append]
    refine ⟨hwf.1, idsFrom_nodup _ _, ?_⟩
    intro x hx hx2
    obtain ⟨a, ha, rfl⟩ := List.mem_map.mp hx
    have h1 := hwf.2 a ha
    have h2 := mem_idsFrom ps.length s.nextId hx2
    omega
  · intro it hit
    rcases List.mem_append.mp hit with h | h
    · have := hwf.2 it h
      show it.id < s.nextId + ps.length
      omega
    · have := mem_createdItemsFrom ps u now s.nextId h
      show it.id < s.nextId + ps.length
      omega

theorem inv_insertCreated {s : Store} {g : Ghost}
    (hinv : ∀ it ∈ s.items, ∀ v, it.assignedTo = some v → g it.id = some v)
    (u : String) (ps : List Json) (now : Nat) :
    ∀ it ∈ (insertCreated s u ps now).2.items, ∀ v,
      it.assignedTo = some v → g it.id = some v := by
  rw [insertCreated_eq]
  intro it hit v hv
  rcases List.mem_append.mp hit with h | h
  · exact hinv it h v hv
  · have := (mem_createdItemsFrom ps u now s.nextId h).2.1
    rw [this] at hv
    cases hv

theorem nodup_map_id_get_ne {l : List Item} (hnd : (l.map (·.id)).Nodup)
    {i j : Nat} (hi : i < l.length) (hj : j < l.length) (hij : i ≠ j) :
    (l.get ⟨i, hi⟩).id ≠ (l.get ⟨j, hj⟩).id := by
  intro heq
  have hi' : i < (l.map (·.id)).length := by simpa using hi
  have hj' : j < (l.map (·.id)).length := by simpa using hj
  have h1 : (l.map (·.id))[i] = (l.get ⟨i, hi⟩).id := by
    rw [List.getElem_map, List.get_eq_getElem]
  have h2 : (l.map (·.id))[j] = (l.get ⟨j, hj⟩).id := by
    rw [List.getElem_map, List.get_eq_getElem]
  have : (l.map (·.id))[i] = (l.map (·.id))[j] := by rw [h1, h2, heq]
  exact hij ((List.Nodup.getElem_inj_iff hnd).mp this)

theorem inv_set_assign {l : List Item} {g : Ghost} {u : String}
    (hnd : (l.map (·.id)).Nodup)
    (hinv : ∀ it ∈ l, ∀ v, it.assignedTo = some v → g it.id = some v)
    (i : Fin l.length) :
    ∀ it ∈ updateFirstById l (l.get i).id (setUsedAssigned u), ∀ v,
      it.assignedTo = some v →
        (if it.id = (l.get i).id then some u else g it.id) = some v := by
  rw [updateFirstById_eq_set i.1 i.2 hnd]
  intro it hit v hv
  obtain ⟨j, hj⟩ := List.mem_iff_get.mp hit
  have hjl : j.1 < l.length := by
    have := j.2
    simpa using this
  by_cases hji : j.1 = i.1
  · have hit_eq : it = setUsedAssigned u (l.get ⟨i.1, i.2⟩) := by
      rw [← hj, List.get_eq_getElem]
      have hb : i.1 < (l.set i.1 (setUsedAssigned u (l.get ⟨i.1, i.2⟩))).length := by
        simp only [List.length_set]
        exact i.2
      calc (l.set i.1 (setUsedAssigned u (l.get ⟨i.1, i.2⟩)))[j.1]
          = (l.set i.1 (setUsedAssigned u (l.get ⟨i.1, i.2⟩)))[i.1] := by
            congr 1
        _ = setUsedAssigned u (l.get ⟨i.1, i.2⟩) := List.getElem_set_self hb
    have h1 : it.id = (l.get i).id := by rw [hit_eq]; rfl
    rw [if_pos h1]
    have h2 : it.assignedTo = some u := by rw [hit_eq]; rfl
    rw [h2] at hv
    exact hv
  · have hit_eq : it = l.get ⟨j.1, hjl⟩ := by
      have h0 := @List.getElem_set_of_ne _ l i.1 j.1
        (fun hh => hji hh.symm) (setUsedAssigned u (l.get ⟨i.1, i.2⟩)) j.2
      rw [← hj, List.get_eq_getElem, h0]
      exact (List.get_eq_getElem l ⟨j.1, hjl⟩).symm
    have hmem : it ∈ l := by
      rw [hit_eq]
      exact List.get_mem _ _ _
    have hne : it.id ≠ (l.get i).id := by
      rw [hit_eq]
      exact nodup_map_id_get_ne hnd hjl i.2 hji
    rw [if_neg hne]
    exact hinv it hmem v hv

theorem acquireSelect_pos {s : Store} {cn u : String} {r1 r2 : Nat}
    (h : (s.items.filter (isCandidate u)).length ≠ 0) :
    acquireSelect s cn u r1 r2
      = (AcquireResult.mk true (ResultData.payload
            (((s.items.filter (isCandidate u)).get
              ⟨r1 % (s.items.filter (isCandidate u)).length,
                Nat.mod_lt _ (Nat.pos_of_ne_zero h)⟩).data)),
         Store.mk
           (updateFirstById s.items
             ((s.items.filter (isCandidate u)).get
               ⟨r1 % (s.items.filter (isCandidate u)).length,
                 Nat.mod_lt _ (Nat.pos_of_ne_zero h)⟩).id
             (setUsedAssigned u))
           s.nextId,
         some ((s.items.filter (isCandidate u)).get
           ⟨r1 % (s.items.filter (isCandidate u)).length,
             Nat.mod_lt _ (Nat.pos_of_ne_zero h)⟩).id) := by
  simp only [acquireSelect]
  rw [dif_pos h]

theorem acquireSelect_resetCase {s : Store} {cn u : String} {r1 r2 : Nat}
    (h1 : ¬ (s.items.filter (isCandidate u)).length ≠ 0)
    (h2 : (resetAll s).items.length ≠ 0) :
    acquireSelect s cn u r1 r2
      = (AcquireResult.mk true (ResultData.payload
            (((resetAll s).items.get
              ⟨r2 % (resetAll s).items.length,
                Nat.mod_lt _ (Nat.pos_of_ne_zero h2)⟩).data)),
         Store.mk
           (updateFirstById (resetAll s).items
             (((resetAll s).items.get
               ⟨r2 % (resetAll s).items.length,
                 Nat.mod_lt _ (Nat.pos_of_ne_zero h2)⟩).id)
             (setUsedAssigned u))
           (resetAll s).nextId,
         some (((resetAll s).items.get
           ⟨r2 % (resetAll s).items.length,
             Nat.mod_lt _ (Nat.pos_of_ne_zero h2)⟩).id)) := by
  simp only [acquireSelect]
  rw [dif_neg h1, dif_pos h2]

theorem acquireSelect_noneCase {s : Store} {cn u : String} {r1 r2 : Nat}
    (h1 : ¬ (s.items.filter (isCandidate u)).length ≠ 0)
    (h2 : ¬ (resetAll s).items.length ≠ 0) :
    acquireSelect s cn u r1 r2
      = (AcquireResult.mk false (ResultData.err ("No " ++ cn ++ " available")),
         resetAll s, none) := by
  simp only [acquireSelect]
  rw [dif_neg h1, dif_neg h2]

theorem inv_update_assign_mem {l : List Item} {g : Ghost} {u : String}
    (hnd : (l.map (·.id)).Nodup)
    (hinv : ∀ it ∈ l, ∀ v, it.assignedTo = some v → g it.id = some v)
    {itm : Item} (hmem : itm ∈ l) :
    ∀ it ∈ updateFirstById l itm.id (setUsedAssigned u), ∀ v,
      it.assignedTo = some v →
        (if it.id = itm.id then some u else g it.id) = some v := by
  obtain ⟨i, hi⟩ := List.mem_iff_get.mp hmem
  subst hi
  exact inv_set_assign hnd hinv i

theorem wf_seedIfEmpty {s : Store} (hwf : StoreWF s) (sample : List SampleItem) :
    StoreWF (seedIfEmpty s sample) := by
  unfold seedIfEmpty
  split
  · exact wf_insertSampleItems hwf sample
  · exact hwf

theorem inv_seedIfEmpty {s : Store} {g : Ghost} (hinv : GhostInv s g)
    (sample : List SampleItem) : GhostInv (seedIfEmpty s sample) g := by
  unfold seedIfEmpty
  split
  · exact inv_insertSampleItems hinv sample
  · exact hinv

theorem wf_initializeCollection {s : Store} (hwf : StoreWF s)
    (sample : List SampleItem) : StoreWF (initializeCollection s sample) := by
  unfold initializeCollection
  split
  · exact wf_insertSampleItems hwf sample
  · exact hwf

theorem inv_initializeCollection {s : Store} {g : Ghost} (hinv : GhostInv s g)
    (sample : List SampleItem) : GhostInv (initializeCollection s sample) g := by
  unfold initializeCollection
  split
  · exact inv_insertSampleItems hinv sample
  · exact hinv

theorem wf_map_preserving {s : Store} (hwf : StoreWF s) {f : Item → Item}
    (hf : ∀ it, (f it).id = it.id) :
    StoreWF { s with items := s.items.map f } := by
  refine ⟨?_, ?_⟩
  · show ((s.items.map f).map (·.id)).Nodup
    rw [List.map_map]
    have he : s.items.map ((·.id) ∘ f) = s.items.map (·.id) := by
      refine List.map_congr_left ?_
      intro a _
      exact hf a
    rw [he]
    exact hwf.1
  · intro it hit
    obtain ⟨a, ha, rfl⟩ := List.mem_map.mp hit
    show (f a).id < s.nextId
    rw [hf a]
    exact hwf.2 a ha

theorem inv_map_preserving {s : Store} {g : Ghost} (hinv : GhostInv s g)
    {f : Item → Item} (hf1 : ∀ it, (f it).id = it.id)
    (hf2 : ∀ it, (f it).assignedTo = it.assignedTo) :
    GhostInv { s with items := s.items.map f } g := by
  intro it hit v hv
  obtain ⟨a, ha, rfl⟩ := List.mem_map.mp hit
  rw [hf1 a]
  refine hinv a ha v ?_
  rw [← hf2 a]
  exact hv

theorem markAllUsed_f_id (it : Item) :
    ((if it.used then it else { it with used := true }) : Item).id = it.id := by
  by_cases h : it.used <;> simp [h]

theorem markAllUsed_f_assigned (it : Item) :
    ((if it.used then it
      else { it with used := true }) : Item).assignedTo = it.assignedTo := by
  by_cases h : it.used <;> simp [h]

theorem wf_markAllUsed {s : Store} (hwf : StoreWF s) :
    StoreWF (markAllItemsAsUsed s).2 :=
  wf_map_preserving hwf markAllUsed_f_id

theorem inv_markAllUsed {s : Store} {g : Ghost} (hinv : GhostInv s g) :
    GhostInv (markAllItemsAsUsed s).2 g :=
  inv_map_preserving hinv markAllUsed_f_id markAllUsed_f_assigned

theorem wf_deleteByUser {s : Store} (hwf : StoreWF s) (u : String) :
    StoreWF (deleteItemsByUser s u).2 := by
  refine ⟨?_, ?_⟩
  · exact List.Nodup.sublist (List.Sublist.map _ (List.filter_sublist _)) hwf.1
  · intro it hit
    exact hwf.2 it (List.mem_of_mem_filter hit)

theorem inv_deleteByUser {s : Store} {g : Ghost} (hinv : GhostInv s g)
    (u : String) : GhostInv (deleteItemsByUser s u).2 g := by
  intro it hit v hv
  exact hinv it (List.mem_of_mem_filter hit) v hv

theorem wf_inv_acquire {s : Store} {g : Ghost} (hwf : StoreWF s)
    (hinv : GhostInv s g) (cn u : String) (sample : List SampleItem)
    (r1 r2 : Nat) :
    StoreWF (applyOpG (s, g) (Op.acquire cn u sample r1 r2)).1 ∧
    GhostInv (applyOpG (s, g) (Op.acquire cn u sample r1 r2)).1
      (applyOpG (s, g) (Op.acquire cn u sample r1 r2)).2 := by
  have hwf1 : StoreWF (seedIfEmpty s sample) := wf_seedIfEmpty hwf sample
  have hinv1 : GhostInv (seedIfEmpty s sample) g := inv_seedIfEmpty hinv sample
  simp only [applyOpG, applyOp, getItemFromCollection, acquireGhost]
  set s1 := seedIfEmpty s sample with hs1
  by_cases hc : (s1.items.filter (isCandidate u)).length ≠ 0
  · rw [acquireSelect_pos hc]
    dsimp only
    constructor
    · exact wf_update hwf1 _ (fun _ => rfl)
    · intro it hit v hv
      have hmem : ((s1.items.filter (isCandidate u)).get
          ⟨r1 % (s1.items.filter (isCandidate u)).length,
            Nat.mod_lt _ (Nat.pos_of_ne_zero hc)⟩) ∈ s1.items :=
        List.mem_of_mem_filter (List.get_mem _ _ _)
      exact inv_update_assign_mem hwf1.1 hinv1 hmem it hit v hv
  · by_cases hr : (resetAll s1).items.length ≠ 0
    · rw [acquireSelect_resetCase hc hr]
      dsimp only
      constructor
      · exact wf_update (wf_resetAll hwf1) _ (fun _ => rfl)
      · intro it hit v hv
        have hmem : ((resetAll s1).items.get
            ⟨r2 % (resetAll s1).items.length,
              Nat.mod_lt _ (Nat.pos_of_ne_zero hr)⟩) ∈ (resetAll s1).items :=
          List.get_mem _ _ _
        exact inv_update_assign_mem (wf_resetAll hwf1).1 inv_resetAll
          hmem it hit v hv
    · rw [acquireSelect_noneCase hc hr]
      dsimp only
      constructor
      · exact wf_resetAll hwf1
      · intro it hit v hv
        exact inv_resetAll it hit v hv

theorem reachableG_wf_inv {sg : Store × Ghost} (h : ReachableG sg) :
    StoreWF sg.1 ∧ GhostInv sg.1 sg.2 := by
  induction h with
  | init =>
    constructor
    · exact ⟨List.nodup_nil, fun it hit => absurd hit (List.not_mem_nil it)⟩
    · intro it hit
      exact absurd hit (List.not_mem_nil it)
  | @step sg h op ih =>
    obtain ⟨s, g⟩ := sg
    cases op with
    | acquire cn u sample r1 r2 => exact wf_inv_acquire ih.1 ih.2 cn u sample r1 r2
    | create u ps now =>
      exact ⟨wf_insertCreated ih.1 u ps now,
        fun it hit v hv => inv_insertCreated ih.2 u ps now it hit v hv⟩
    | initCollection sample =>
      exact ⟨wf_initializeCollection ih.1 sample,
        inv_initializeCollection ih.2 sample⟩
    | markAllUsed => exact ⟨wf_markAllUsed ih.1, inv_markAllUsed ih.2⟩
    | deleteByUser u => exact ⟨wf_deleteByUser ih.1 u, inv_deleteByUser ih.2 u⟩

/-- Refutation of the claim as stated for C5: `markAllItemsAsUsed` sets
`used = true` without touching `assignedTo`, so a reachable state
(seed the question collection, then mark all used) holds an item with
`used = true` whose `assignedTo` is not set to any user at all. -/
theorem claim_C5_counterexample :
    ReachableG (applyOpG (applyOpG (emptyStore, fun _ => none)
      (Op.initCollection questionSampleData)) Op.markAllUsed) ∧
    ∃ it ∈ (applyOpG (applyOpG (emptyStore, fun _ => none)
      (Op.initCollection questionSampleData)) Op.markAllUsed).1.items,
      it.used = true ∧ it.assignedTo = none := by
  constructor
  · exact ReachableG.step (ReachableG.step ReachableG.init _) _
  · decide

/-- C5 (amended): in every state reachable by any sequence of the five
operations, every item whose `assignedTo` field is set carries exactly
the user id recorded as having triggered that item's last assignment
transition; an item with `used = true` may however have `assignedTo`
unset, since `markAllItemsAsUsed` marks items used without assigning
them. -/
theorem claim_C5_last_assigner {sg : Store × Ghost} (h : ReachableG sg) :
    ∀ it ∈ sg.1.items, it.used = true → ∀ u, it.assignedTo = some u →
      sg.2 it.id = some u := by
  intro it hit _hused u hu
  exact (reachableG_wf_inv h).2 it hit u hu

theorem claim_C5_witness :
    (applyOpG (applyOpG (emptyStore, fun _ => none)
      (Op.initCollection questionSampleData))
      (Op.acquire "questions" "alice" questionSampleData 0 0)).2 1
      = some "alice" := by
  have hreach : ReachableG (applyOpG (applyOpG (emptyStore, fun _ => none)
      (Op.initCollection questionSampleData))
      (Op.acquire "questions" "alice" questionSampleData 0 0)) :=
    ReachableG.step (ReachableG.step ReachableG.init _) _
  have h := claim_C5_last_assigner hreach
  have hmem := List.get_mem (applyOpG (applyOpG (emptyStore, fun _ => none)
      (Op.initCollection questionSampleData))
      (Op.acquire "questions" "alice" questionSampleData 0 0)).1.items 0
      (of_decide_eq_true rfl)
  have hconc := h _ hmem (by decide) "alice" (by decide)
  have hid : ((applyOpG (applyOpG (emptyStore, fun _ => none)
      (Op.initCollection questionSampleData))
      (Op.acquire "questions" "alice" questionSampleData 0 0)).1.items.get
      ⟨0, of_decide_eq_true rfl⟩).id = 1 := by decide
  rw [hid] at hconc
  exact hconc
